import Mathlib

/-!
Verification of the pagination / list-options core of the linodego client
library (file `pagination.go` of the repository, package `linodego`).

The Go source is shallowly embedded:

* `PageOptions`, `ListOptions`, `NewListOptions` mirror the option model;
  Go nil-pointers become `Option`.
* Query-parameter flattening (`flattenQueryStruct`, `queryFieldToString`)
  operates on a model of Go reflection values (`QVal`, `QPVal`): the model
  carries exactly the observations the source makes of a reflected value
  (its kind, its type name, whether it is the zero value, string / integer /
  boolean payloads, pointer dereference, JSON-serializability).
* `applyListOptionsToRequest` acts on a `Request` value holding the query
  parameters and headers a resty request accumulates; `SetQueryParam` is the
  overwriting update of an association list, as `url.Values.Set` is.
* `listHelper` becomes `listHelperFuel`: the Go function recurses with the
  page field set to a value `>= 2`, and such a call never recurses again
  (its page is non-zero), so the recursion depth is at most two; the fuel
  argument makes that recursion structural, `fetchAll` instantiates it at
  fuel 2, and `listHelperFuel_fuel_irrelevant` proves that any larger fuel
  computes the same result, i.e. the fuel never truncates a reachable run.
  The capability (`pager`) is modelled by a `Server` function from the
  outbound request to either an error or one decoded page (`PageData`);
  the endpoint / ids resolution is fixed inside it, exactly as a single
  `PagedResponse` fixes its endpoint.  The accumulator of the capability
  and the ordered list of issued requests are threaded through explicitly.
* `ListOptions.Hash` is `sha256` (implemented below over byte lists, words
  as `Nat` reduced mod 2^32) of a JSON serialization of the value,
  hex-encoded in lower case, mirroring `json.Marshal` + `fmt.Sprintf("%x")`.
-/

/-! ## Association lists: the query-parameter and header maps -/

/-- Lookup in an association list (first match). -/
def assocGet : List (String × String) → String → Option String
  | [], _ => none
  | (k', v) :: t, k => if k' = k then some v else assocGet t k

/-- Overwriting update of an association list: replace the binding of `k`
if present (keeping its position), else append.  This is the behaviour of
`url.Values.Set`, used by resty's `SetQueryParam` / `SetHeader`. -/
def assocSet : List (String × String) → String → String → List (String × String)
  | [], k, v => [(k, v)]
  | (k', v') :: t, k, v => if k' = k then (k, v) :: t else (k', v') :: assocSet t k v

/-- The outbound request object: the query parameters and headers that
`applyListOptionsToRequest` may set on a `resty.Request`. -/
structure Request where
  query : List (String × String)
  headers : List (String × String)
deriving DecidableEq, Repr

def emptyRequest : Request := ⟨[], []⟩

/-- Model of `req.SetQueryParam(k, v)`. -/
def Request.setQuery (r : Request) (k v : String) : Request :=
  { r with query := assocSet r.query k v }

/-- Model of `req.SetQueryParams(m)`: set every entry of the flattened map. -/
def Request.setQueryParams (r : Request) (m : List (String × String)) : Request :=
  m.foldl (fun r kv => r.setQuery kv.1 kv.2) r

/-- Model of `req.SetHeader(k, v)`. -/
def Request.setHeader (r : Request) (k v : String) : Request :=
  { r with headers := assocSet r.headers k v }

def Request.getQuery (r : Request) (k : String) : Option String :=
  assocGet r.query k

def Request.getHeader (r : Request) (k : String) : Option String :=
  assocGet r.headers k

/-! ## Model of Go reflection values reaching the query flattener -/

/-- The signed integer kinds of `reflect`: `Int`, `Int8`, `Int16`, `Int32`,
`Int64`.  The source's switch lists only `Int64`, `Int32`, `Int`. -/
inductive IntWidth where
  | iN | i8 | i16 | i32 | i64
deriving DecidableEq, Repr

def IntWidth.name : IntWidth → String
  | .iN => "int"
  | .i8 => "int8"
  | .i16 => "int16"
  | .i32 => "int32"
  | .i64 => "int64"

/-- A reflected field value, as observed by `flattenQueryStruct` /
`queryFieldToString` and by `json.Marshal`:

* `str`, `int`, `bool` — the kinds the flattener stringifies;
* `ptr` — a pointer field, `none` when nil (`reflect.Indirect` removes one
  level);
* `other kind typeName isZero marshalable jsonRepr` — any remaining kind
  (float, unsigned int, struct, func, chan, ...): the source only observes
  its `Kind().String()`, its `Type().Name()`, `IsZero()`, and
  `json.Marshal` either renders it (`jsonRepr`) or fails on it
  (`marshalable = false`, e.g. func / chan values). -/
inductive QVal where
  | str (s : String)
  | int (w : IntWidth) (n : Int)
  | bool (b : Bool)
  | ptr (v : Option QVal)
  | other (kind : String) (typeName : String) (isZeroFlag : Bool)
      (marshalable : Bool) (jsonRepr : String)

/-- Model of `reflect.Value.IsZero` on the kinds of `QVal`. -/
def QVal.isZero : QVal → Bool
  | .str s => s = ""
  | .int _ n => n = 0
  | .bool b => !b
  | .ptr v => v.isNone
  | .other _ _ z _ _ => z

/-- Model of `reflect.Indirect`: dereference one pointer level.  A nil pointer is
never dereferenced by the source (it is the zero value and was skipped). -/
def QVal.goDeref : QVal → QVal
  | .ptr (some v) => v
  | v => v

/-- One struct field of a caller-supplied QueryParams struct: its Go name,
its `query` struct tag (absent when untagged), and its value. -/
structure QStructField where
  name : String
  tag : Option String
  val : QVal

/-- The `any`-typed `QueryParams` payload: a struct, a pointer (to whatever),
or a non-struct value of some other kind (`kindName` is `Kind().String()`).
Non-struct values also record what `json.Marshal` does with them. -/
inductive QPVal where
  | strukt (fields : List QStructField)
  | ptr (v : Option QPVal)
  | nonStruct (kindName : String) (marshalable : Bool) (jsonRepr : String)

def QPVal.kindName : QPVal → String
  | .strukt _ => "struct"
  | .ptr _ => "ptr"
  | .nonStruct k _ _ => k

/-- Embeds `queryFieldToString` (source lines 187–198): stringify one (already
dereferenced) field value.  The switch covers `String`; `Int64`, `Int32`,
`Int`; `Bool`; everything else hits the default case and fails naming
`value.Type().Name()` (empty for an unnamed pointer type). -/
def queryFieldToString : QVal → Except String String
  | .str s => .ok s
  | .int .i64 n => .ok (toString n)
  | .int .i32 n => .ok (toString n)
  | .int .iN n => .ok (toString n)
  | .int .i8 _ => .error "unsupported query param type: int8"
  | .int .i16 _ => .error "unsupported query param type: int16"
  | .bool b => .ok (if b then "true" else "false")
  | .ptr _ => .error "unsupported query param type: "
  | .other _ tn _ _ _ => .error ("unsupported query param type: " ++ tn)

/-- The field loop of `flattenQueryStruct` (source lines 152–184), with the
result map built up in declaration order; `result[queryTag] = fieldString`
is the overwriting `assocSet`.  Untagged fields and zero values are
skipped; the first stringification error aborts. -/
def flattenFields : List (String × String) → List QStructField → Except String (List (String × String))
  | acc, [] => .ok acc
  | acc, f :: rest =>
    match f.tag with
    | none => flattenFields acc rest
    | some t =>
      if f.val.isZero then flattenFields acc rest
      else
        match queryFieldToString f.val.goDeref with
        | .error e => .error e
        | .ok s => flattenFields (assocSet acc t s) rest

/-- Embeds `flattenQueryStruct` (source lines 130–185): dereference one pointer
level (nil fails), require a struct, then run the field loop. -/
def flattenQueryStruct : QPVal → Except String (List (String × String))
  | .ptr none => .error "QueryParams is a nil pointer"
  | .ptr (some v) =>
    match v with
    | .strukt fs => flattenFields [] fs
    | w => .error ("expected struct type for the QueryParams but got: " ++ w.kindName)
  | .strukt fs => flattenFields [] fs
  | .nonStruct k _ _ => .error ("expected struct type for the QueryParams but got: " ++ k)

/-! ## The option model -/

/-- Embeds `PageOptions` (source lines 19–23).  Go `int` is modelled by `Int`. -/
structure PageOptions where
  page : Int
  pages : Int
  results : Int
deriving DecidableEq, Repr

/-- Embeds `ListOptions` (source lines 27–36).  The embedded `*PageOptions`
pointer and the `any`-typed `QueryParams` become `Option`s. -/
structure ListOptions where
  pageOptions : Option PageOptions
  pageSize : Int
  filter : String
  queryParams : Option QPVal

/-- Embeds `NewListOptions(page, filter)` (source lines 40–42). -/
def NewListOptions (page : Int) (filter : String) : ListOptions :=
  ⟨some ⟨page, 0, 0⟩, 0, filter, none⟩

/-- The `&ListOptions{PageOptions: &PageOptions{Page: 0}}` synthesized at
source line 109 when the caller passed nil options. -/
def defaultListOptions : ListOptions := ⟨some ⟨0, 0, 0⟩, 0, "", none⟩

/-- Source lines 111–113: give nil `PageOptions` the value
`&PageOptions{Page: 0}`. -/
def normalizePageOptions (o : ListOptions) : ListOptions :=
  match o.pageOptions with
  | none => { o with pageOptions := some ⟨0, 0, 0⟩ }
  | some _ => o

/-- Reading `opts.Page` through the embedded `PageOptions` pointer.  The
source only reads it after lines 111–113 made the pointer non-nil; `0` for
the `none` case is arbitrary (Go would panic there). -/
def ListOptions.page (o : ListOptions) : Int :=
  match o.pageOptions with
  | some pw => pw.page
  | none => 0

/-- The assignment `opts.Page = p` (source line 116), written through the non-nil
`PageOptions` pointer. -/
def setPage (o : ListOptions) (p : Int) : ListOptions :=
  { o with pageOptions := (o.pageOptions.map (fun pw => { pw with page := p })) }

/-- The writes `opts.Results = results; opts.Pages = pages` (source lines 123–124). -/
def writeTotals (o : ListOptions) (pages results : Int) : ListOptions :=
  { o with pageOptions := (o.pageOptions.map (fun pw => { pw with results := results, pages := pages })) }

/-! ## Applying options to a request -/

/-- The tail of `applyListOptionsToRequest` (source lines 73–85): page,
page size, filter.  `strconv.Itoa` is `toString` on `Int`. -/
def applyRest (o : ListOptions) (req : Request) : Request :=
  let req1 :=
    match o.pageOptions with
    | some pw => if 0 < pw.page then req.setQuery "page" (toString pw.page) else req
    | none => req
  let req2 := if 0 < o.pageSize then req1.setQuery "page_size" (toString o.pageSize) else req1
  if 0 < o.filter.length then req2.setHeader "X-Filter" o.filter else req2

/-- Embeds `applyListOptionsToRequest` (source lines 59–86). -/
def applyListOptionsToRequest (opts : Option ListOptions) (req : Request) : Except String Request :=
  match opts with
  | none => .ok req
  | some o =>
    match o.queryParams with
    | none => .ok (applyRest o req)
    | some qp =>
      match flattenQueryStruct qp with
      | .error e => .error ("failed to apply list options: " ++ e)
      | .ok m => .ok (applyRest o (req.setQueryParams m))

/-- The flattener lifted to the optional `QueryParams` field: the
source skips flattening when the field is nil. -/
def flattenOpt : Option QPVal → Except String (List (String × String))
  | none => .ok []
  | some qp => flattenQueryStruct qp

/-! ## The paged fetch orchestrator -/

/-- One decoded page, as returned by `pager.castResult`: the reported
total pages and total results, plus the items the call appended to the
capability's accumulator (modelled as integers; the core never inspects
them). -/
structure PageData where
  pages : Int
  results : Int
  items : List Int
deriving DecidableEq, Repr

/-- The per-resource capability: issuing the built request yields either a
transport/decode error or one decoded page.  Endpoint and ids resolution
are fixed inside it, as they are for one `PagedResponse` value. -/
def Server : Type := Request → Except String PageData

/-- The observable outcome of a `listHelper` call: the error (if any), the
state of the Go-local `opts` variable on return, the capability's
accumulator, and the ordered list of requests issued so far. -/
structure LHOut where
  err : Option String
  opts : Option ListOptions
  acc : List Int
  reqs : List Request

/-- The iteration values of `for page := 2; page <= pages; page++`
(source line 115): the list `[2, ..., pages]`. -/
def pageList (pages : Int) : List Int :=
  (List.range (pages - 1).toNat).map (fun (i : Nat) => 2 + (i : Int))

/-- The body of the `for` loop of source lines 115–120, abstracted over the
recursive call `step`: set `opts.Page = page`, recurse; a failing recursive
call returns its error immediately, a successful one continues with the
state the recursive call left behind (the recursive call shares the
caller's `opts` pointer, so its returned options — always `some` for a
non-nil argument — are the loop's next state). -/
def pageLoop (step : Option ListOptions → List Int → List Request → LHOut) :
    List Int → ListOptions → List Int → List Request →
    Option String × ListOptions × List Int × List Request
  | [], o, acc, reqs => (none, o, acc, reqs)
  | p :: rest, o, acc, reqs =>
    let o' := setPage o p
    match step (some o') acc reqs with
    | ⟨some e, oo, a, r⟩ => (some e, oo.getD o', a, r)
    | ⟨none, oo, a, r⟩ => pageLoop step rest (oo.getD o') a r

/-- Embeds `listHelper` (source lines 98–126), with a fuel argument making the
recursion structural.  A recursive call always receives `opts.Page >= 2`
and therefore never recurses again, so the real recursion depth is at most
two; `fetchAll` runs with fuel 2 and `listHelperFuel_fuel_irrelevant`
below shows larger fuel computes the same thing, i.e. the sentinel
"out of fuel" error is unreachable from `fetchAll`. -/
def listHelperFuel (g : Server) : Nat → Option ListOptions → List Int → List Request → LHOut
  | 0, opts, acc, reqs => ⟨some "listHelper: out of fuel", opts, acc, reqs⟩
  | fuel + 1, opts, acc, reqs =>
    match applyListOptionsToRequest opts emptyRequest with
    | .error e => ⟨some e, opts, acc, reqs⟩
    | .ok req =>
      match g req with
      | .error e => ⟨some e, opts, acc, reqs ++ [req]⟩
      | .ok d =>
        let acc1 := acc ++ d.items
        let reqs1 := reqs ++ [req]
        let o := normalizePageOptions (opts.getD defaultListOptions)
        if o.page = 0 then
          match pageLoop (fun oo a r => listHelperFuel g fuel oo a r) (pageList d.pages) o acc1 reqs1 with
          | (some e, o2, a2, r2) => ⟨some e, some o2, a2, r2⟩
          | (none, o2, a2, r2) => ⟨none, some (writeTotals o2 d.pages d.results), a2, r2⟩
        else ⟨none, some (writeTotals o d.pages d.results), acc1, reqs1⟩

/-- A full `listHelper` call on a fresh capability: fuel 2 covers the
recursion (see `listHelperFuel_fuel_irrelevant`). -/
def fetchAll (g : Server) (opts : Option ListOptions) : LHOut :=
  listHelperFuel g 2 opts [] []

/-- What the caller's own `opts` variable refers to after the call: Go
passes the pointer by value, so when the caller passed nil, the synthesis
at source line 109 reassigns only the callee's local and the caller still
holds nil; otherwise the caller sees the final state of the shared
`ListOptions`. -/
def callerOptions (passed : Option ListOptions) (out : LHOut) : Option ListOptions :=
  match passed with
  | none => none
  | some _ => out.opts

/-- A server keyed on the `page` query parameter of the request — the
provider convention: no `page` parameter means page 1. -/
def serverByPage (f : Option String → Except String PageData) : Server :=
  fun req => f (req.getQuery "page")

/-- The options state a successful run of the loop of source lines 115–120
leaves behind: each iteration overwrites `page` (line 116) and the inner
call overwrites `results`/`pages` (lines 123–124 of the recursive frame),
so only the last iteration survives. -/
def loopExit (d : Int → PageData) (o : ListOptions) (ps : List Int) : ListOptions :=
  match ps.getLast? with
  | none => o
  | some p => writeTotals (setPage o p) (d p).pages (d p).results

/-! ## JSON serialization of `ListOptions` (model of `json.Marshal`) -/

/-- JSON string escaping (quote and backslash; the model keeps other
characters as they are — the claims depend only on determinism of the
encoding, not on its exact escape table). -/
def escChar (c : Char) : List Char :=
  if c = '"' then ['\\', '"']
  else if c = '\\' then ['\\', '\\']
  else [c]

/-- A JSON string literal. -/
def jsonString (s : String) : String :=
  "\"" ++ String.mk ((s.data.map escChar).flatten) ++ "\""

/-- Model of `json.Marshal` on one reflected field value.  Func/chan-like values
(`marshalable = false`) fail with `json: unsupported type`. -/
def jsonQVal : QVal → Except String String
  | .str s => .ok (jsonString s)
  | .int _ n => .ok (toString n)
  | .bool b => .ok (if b then "true" else "false")
  | .ptr none => .ok "null"
  | .ptr (some v) => jsonQVal v
  | .other _ tn _ marsh repr =>
    if marsh then .ok repr else .error ("json: unsupported type: " ++ tn)

/-- Model of `json.Marshal` on the fields of a QueryParams struct: the caller's
structs carry `query` tags, not `json` tags, so the JSON key is the Go
field name. -/
def jsonQFields : List QStructField → Except String (List String)
  | [] => .ok []
  | f :: rest =>
    match jsonQVal f.val with
    | .error e => .error e
    | .ok v =>
      match jsonQFields rest with
      | .error e => .error e
      | .ok vs => .ok ((jsonString f.name ++ ":" ++ v) :: vs)

/-- A JSON object from already-rendered `"key":value` members. -/
def jsonObj (members : List String) : String :=
  "\x7b" ++ String.intercalate "," members ++ "\x7d"

/-- Model of `json.Marshal` on the `any`-typed `QueryParams` value. -/
def jsonQPVal : QPVal → Except String String
  | .strukt fs =>
    match jsonQFields fs with
    | .error e => .error e
    | .ok ms => .ok (jsonObj ms)
  | .ptr none => .ok "null"
  | .ptr (some v) => jsonQPVal v
  | .nonStruct k marsh repr =>
    if marsh then .ok repr else .error ("json: unsupported type: " ++ k)

/-- Model of `json.Marshal` of a `ListOptions` value: struct fields in declaration
order; the embedded `*PageOptions` promotes `page`/`pages`/`results`
(omitted entirely when the pointer is nil), then `page_size`, `filter`,
and the untagged `QueryParams` field under its Go name (`null` when nil). -/
def jsonMarshal (l : ListOptions) : Except String String :=
  let pagePart :=
    match l.pageOptions with
    | none => []
    | some pw =>
      ["\"page\":" ++ toString pw.page,
       "\"pages\":" ++ toString pw.pages,
       "\"results\":" ++ toString pw.results]
  let qpPart :=
    match l.queryParams with
    | none => Except.ok "null"
    | some q => jsonQPVal q
  match qpPart with
  | .error e => .error e
  | .ok qps =>
    .ok (jsonObj (pagePart ++
      ["\"page_size\":" ++ toString l.pageSize,
       "\"filter\":" ++ jsonString l.filter,
       "\"QueryParams\":" ++ qps]))

/-- UTF-8 encoding of one character, as byte values. -/
def utf8Bytes (c : Char) : List Nat :=
  let n := c.toNat
  if n < 128 then [n]
  else if n < 2048 then [192 + n / 64, 128 + n % 64]
  else if n < 65536 then [224 + n / 4096, 128 + (n / 64) % 64, 128 + n % 64]
  else [240 + n / 262144, 128 + (n / 4096) % 64, 128 + (n / 64) % 64, 128 + n % 64]

/-- The serialized bytes `json.Marshal(l)` hands to the hasher. -/
def marshalBytes (l : ListOptions) : Except String (List Nat) :=
  (jsonMarshal l).map (fun s => (s.data.map utf8Bytes).flatten)

/-! ## SHA-256 over byte lists (words are `Nat` mod 2^32) -/

def w32 (n : Nat) : Nat := n % 4294967296

/-- Right rotation of a 32-bit word. -/
def rotr32 (x n : Nat) : Nat :=
  w32 ((x >>> n) + (x % 2 ^ n) * 2 ^ (32 - n))

def shaCh (x y z : Nat) : Nat := (x &&& y) ^^^ ((x ^^^ 4294967295) &&& z)

def shaMaj (x y z : Nat) : Nat := (x &&& y) ^^^ (x &&& z) ^^^ (y &&& z)

def bigSigma0 (x : Nat) : Nat := rotr32 x 2 ^^^ rotr32 x 13 ^^^ rotr32 x 22

def bigSigma1 (x : Nat) : Nat := rotr32 x 6 ^^^ rotr32 x 11 ^^^ rotr32 x 25

def smallSigma0 (x : Nat) : Nat := rotr32 x 7 ^^^ rotr32 x 18 ^^^ (x >>> 3)

def smallSigma1 (x : Nat) : Nat := rotr32 x 17 ^^^ rotr32 x 19 ^^^ (x >>> 10)

/-- The SHA-256 round constants. -/
def shaK : List Nat :=
  [1116352408, 1899447441, 3049323471, 3921009573,
   961987163, 1508970993, 2453635748, 2870763221,
   3624381080, 310598401, 607225278, 1426881987,
   1925078388, 2162078206, 2614888103, 3248222580,
   3835390401, 4022224774, 264347078, 604807628,
   770255983, 1249150122, 1555081692, 1996064986,
   2554220882, 2821834349, 2952996808, 3210313671,
   3336571891, 3584528711, 113926993, 338241895,
   666307205, 773529912, 1294757372, 1396182291,
   1695183700, 1986661051, 2177026350, 2456956037,
   2730485921, 2820302411, 3259730800, 3345764771,
   3516065817, 3600352804, 4094571909, 275423344,
   430227734, 506948616, 659060556, 883997877,
   958139571, 1322822218, 1537002063, 1747873779,
   1955562222, 2024104815, 2227730452, 2361852424,
   2428436474, 2756734187, 3204031479, 3329325298]

/-- The eight working variables of the compression function. -/
structure ShaState where
  a : Nat
  b : Nat
  c : Nat
  d : Nat
  e : Nat
  f : Nat
  g : Nat
  h : Nat

def shaInit : ShaState :=
  ⟨1779033703, 3144134277, 1013904242, 2773480762,
   1359893119, 2600822924, 528734635, 1541459225⟩

/-- The `k` bytes of `n`, big-endian (truncating above 2^(8k)). -/
def bytesBE : Nat → Nat → List Nat
  | 0, _ => []
  | k + 1, n => bytesBE k (n / 256) ++ [n % 256]

/-- SHA-256 padding: append `0x80`, zero bytes to 56 mod 64, and the
bit length as 8 big-endian bytes. -/
def sha256Pad (msg : List Nat) : List Nat :=
  let L := msg.length
  let z := (119 - L % 64) % 64
  msg ++ [128] ++ List.replicate z 0 ++ bytesBE 8 (L * 8)

/-- Split into 64-byte chunks (the padded length is a multiple of 64). -/
def toChunksAux : Nat → List Nat → List (List Nat)
  | 0, _ => []
  | k + 1, l => l.take 64 :: toChunksAux k (l.drop 64)

def toChunks (l : List Nat) : List (List Nat) := toChunksAux (l.length / 64) l

/-- Big-endian 32-bit words from bytes. -/
def toWordsBE : List Nat → List Nat
  | b0 :: b1 :: b2 :: b3 :: rest => (((b0 * 256 + b1) * 256 + b2) * 256 + b3) :: toWordsBE rest
  | _ => []

/-- The 64-entry message schedule from the 16 chunk words. -/
def shaSchedule (ws : List Nat) : List Nat :=
  (List.range 48).foldl
    (fun w j =>
      let i := j + 16
      w ++ [w32 (smallSigma1 (w.getD (i - 2) 0) + w.getD (i - 7) 0 +
                 smallSigma0 (w.getD (i - 15) 0) + w.getD (i - 16) 0)])
    ws

/-- One compression round. -/
def shaRound (st : ShaState) (kw : Nat) : ShaState :=
  let t1 := w32 (st.h + bigSigma1 st.e + shaCh st.e st.f st.g + kw)
  let t2 := w32 (bigSigma0 st.a + shaMaj st.a st.b st.c)
  ⟨w32 (t1 + t2), st.a, st.b, st.c, w32 (st.d + t1), st.e, st.f, st.g⟩

/-- Process one 64-byte chunk. -/
def shaChunk (st : ShaState) (chunk : List Nat) : ShaState :=
  let w := shaSchedule (toWordsBE chunk)
  let kw := (shaK.zip w).map (fun p => w32 (p.1 + p.2))
  let t := kw.foldl shaRound st
  ⟨w32 (st.a + t.a), w32 (st.b + t.b), w32 (st.c + t.c), w32 (st.d + t.d),
   w32 (st.e + t.e), w32 (st.f + t.f), w32 (st.g + t.g), w32 (st.h + t.h)⟩

/-- The 32-byte SHA-256 digest of a byte list. -/
def sha256 (msg : List Nat) : List Nat :=
  let t := (toChunks (sha256Pad msg)).foldl shaChunk shaInit
  bytesBE 4 t.a ++ bytesBE 4 t.b ++ bytesBE 4 t.c ++ bytesBE 4 t.d ++
  bytesBE 4 t.e ++ bytesBE 4 t.f ++ bytesBE 4 t.g ++ bytesBE 4 t.h

/-! ## Lowercase hex encoding (`fmt.Sprintf("%x", ...)`) -/

def hexDigitAux : Nat → Char
  | 0 => '0' | 1 => '1' | 2 => '2' | 3 => '3' | 4 => '4' | 5 => '5' | 6 => '6' | 7 => '7'
  | 8 => '8' | 9 => '9' | 10 => 'a' | 11 => 'b' | 12 => 'c' | 13 => 'd' | 14 => 'e' | _ => 'f'

def hexDigit (n : Nat) : Char := hexDigitAux (n % 16)

def byteToHex (b : Nat) : List Char := [hexDigit (b / 16), hexDigit b]

def hexEncode (bs : List Nat) : String := String.mk ((bs.map byteToHex).flatten)

def lowerHexChars : List Char := "0123456789abcdef".data

/-- Embeds `ListOptions.Hash` (source lines 46–57): serialize, digest, hex. -/
def ListOptions.Hash (l : ListOptions) : Except String String :=
  match marshalBytes l with
  | .error e => .error ("failed to cache ListOptions: " ++ e)
  | .ok data => .ok (hexEncode (sha256 data))

/-! ## Lemmas: association lists and requests -/

theorem assocGet_assocSet_self (l : List (String × String)) (k v : String) :
    assocGet (assocSet l k v) k = some v := by
  induction l with
  | nil => simp [assocSet, assocGet]
  | cons hd t ih =>
    by_cases h : hd.1 = k
    · simp [assocSet, assocGet, h]
    · simpa [assocSet, assocGet, h] using ih

theorem assocGet_assocSet_ne (l : List (String × String)) (k k' v : String) (h : k' ≠ k) :
    assocGet (assocSet l k' v) k = assocGet l k := by
  induction l with
  | nil => simp [assocSet, assocGet, h]
  | cons hd t ih =>
    by_cases h1 : hd.1 = k'
    · simp [assocSet, assocGet, h1, h]
    · by_cases h2 : hd.1 = k <;> simp [assocSet, assocGet, h1, h2, Ne.symm h, ih]

theorem getQuery_setQuery_self (r : Request) (k v : String) :
    (r.setQuery k v).getQuery k = some v := by
  simp [Request.setQuery, Request.getQuery, assocGet_assocSet_self]

theorem getQuery_setQuery_ne (r : Request) (k k' v : String) (h : k' ≠ k) :
    (r.setQuery k' v).getQuery k = r.getQuery k := by
  simp [Request.setQuery, Request.getQuery, assocGet_assocSet_ne _ _ _ _ h]

theorem getQuery_setHeader (r : Request) (k v k' : String) :
    (r.setHeader k v).getQuery k' = r.getQuery k' := by
  simp [Request.setHeader, Request.getQuery]

theorem headers_setQuery (r : Request) (k v : String) :
    (r.setQuery k v).headers = r.headers := by
  simp [Request.setQuery]

theorem getHeader_setHeader_self (r : Request) (k v : String) :
    (r.setHeader k v).getHeader k = some v := by
  simp [Request.setHeader, Request.getHeader, assocGet_assocSet_self]

theorem getQuery_setQueryParams_none (m : List (String × String)) (r : Request) (k : String)
    (h : assocGet m k = none) :
    (r.setQueryParams m).getQuery k = r.getQuery k := by
  induction m generalizing r with
  | nil => simp [Request.setQueryParams]
  | cons hd t ih =>
    have h1 : ¬hd.1 = k := by
      intro he
      simp [assocGet, he] at h
    have h2 : assocGet t k = none := by
      simpa [assocGet, h1] using h
    have := ih (r.setQuery hd.1 hd.2) h2
    simpa [Request.setQueryParams, getQuery_setQuery_ne _ _ _ _ h1] using this

/-! ## Lemmas: applying options -/

/-- The fields of `ListOptions` that `applyListOptionsToRequest` reads
besides the page number. -/
def staticEq (o1 o2 : ListOptions) : Prop :=
  o1.pageSize = o2.pageSize ∧ o1.filter = o2.filter ∧ o1.queryParams = o2.queryParams

theorem staticEq_refl (o : ListOptions) : staticEq o o := ⟨rfl, rfl, rfl⟩

theorem staticEq_trans {o1 o2 o3 : ListOptions} (h1 : staticEq o1 o2) (h2 : staticEq o2 o3) :
    staticEq o1 o3 :=
  ⟨h1.1.trans h2.1, h1.2.1.trans h2.2.1, h1.2.2.trans h2.2.2⟩

theorem staticEq_setPage (o : ListOptions) (p : Int) : staticEq (setPage o p) o := ⟨rfl, rfl, rfl⟩

theorem staticEq_writeTotals (o : ListOptions) (a b : Int) : staticEq (writeTotals o a b) o :=
  ⟨rfl, rfl, rfl⟩

theorem pageOptions_setPage (o : ListOptions) (pw : PageOptions) (p : Int)
    (h : o.pageOptions = some pw) :
    (setPage o p).pageOptions = some { pw with page := p } := by
  simp [setPage, h]

theorem pageOptions_writeTotals (o : ListOptions) (pw : PageOptions) (a b : Int)
    (h : o.pageOptions = some pw) :
    (writeTotals o a b).pageOptions = some { pw with results := b, pages := a } := by
  simp [writeTotals, h]

theorem normalizePageOptions_of_some (o : ListOptions) (pw : PageOptions)
    (h : o.pageOptions = some pw) : normalizePageOptions o = o := by
  simp [normalizePageOptions, h]

theorem page_of_some (o : ListOptions) (pw : PageOptions) (h : o.pageOptions = some pw) :
    o.page = pw.page := by
  simp [ListOptions.page, h]

/-- Overwriting all three page-window fields erases any difference in the
previous window: only the static fields matter. -/
theorem writeTotals_setPage_congr {o1 o2 : ListOptions} (p a b : Int)
    (hs : staticEq o1 o2) (h1 : o1.pageOptions.isSome) (h2 : o2.pageOptions.isSome) :
    writeTotals (setPage o1 p) a b = writeTotals (setPage o2 p) a b := by
  obtain ⟨pw1, hpw1⟩ := Option.isSome_iff_exists.mp h1
  obtain ⟨pw2, hpw2⟩ := Option.isSome_iff_exists.mp h2
  obtain ⟨hps, hf, hq⟩ := hs
  cases o1
  cases o2
  simp_all [writeTotals, setPage]

theorem apply_of_flattenOpt (o : ListOptions) (r : Request) (m : List (String × String))
    (h : flattenOpt o.queryParams = .ok m) :
    applyListOptionsToRequest (some o) r = .ok (applyRest o (r.setQueryParams m)) := by
  cases hq : o.queryParams with
  | none =>
    rw [hq] at h
    simp [flattenOpt] at h
    subst h
    simp [applyListOptionsToRequest, hq, Request.setQueryParams]
  | some qp =>
    rw [hq] at h
    simp only [flattenOpt] at h
    simp [applyListOptionsToRequest, hq, h]

theorem applyRest_staticEq {o1 o2 : ListOptions} (r : Request)
    (hs : staticEq o1 o2) (hp : o1.pageOptions = o2.pageOptions) :
    applyRest o1 r = applyRest o2 r := by
  obtain ⟨hps, hf, hq⟩ := hs
  simp [applyRest, hps, hf, hp]

theorem apply_staticEq {o1 o2 : ListOptions} (r : Request) (pw1 pw2 : PageOptions)
    (hs : staticEq o1 o2) (h1 : o1.pageOptions = some pw1) (h2 : o2.pageOptions = some pw2)
    (hpage : pw1.page = pw2.page) :
    applyListOptionsToRequest (some o1) r = applyListOptionsToRequest (some o2) r := by
  obtain ⟨hps, hf, hq⟩ := hs
  simp only [applyListOptionsToRequest, hq]
  have hrest : ∀ r' : Request, applyRest o1 r' = applyRest o2 r' := by
    intro r'
    simp [applyRest, hps, hf, h1, h2, hpage]
  cases h : o2.queryParams with
  | none => simp [hrest]
  | some qp => cases flattenQueryStruct qp <;> simp [hrest]

/-- A positive page number is always set as the `page` query parameter,
after — and therefore overriding — any flattened QueryParams entry. -/
theorem applyRest_getQuery_page_pos (o : ListOptions) (pw : PageOptions) (r : Request)
    (h : o.pageOptions = some pw) (hp : 0 < pw.page) :
    (applyRest o r).getQuery "page" = some (toString pw.page) := by
  simp only [applyRest, h, hp, if_pos]
  by_cases hs : 0 < o.pageSize <;>
    by_cases hf : 0 < o.filter.length <;>
      simp [hs, hf, getQuery_setHeader, getQuery_setQuery_self,
        getQuery_setQuery_ne _ _ _ _ (by decide : "page_size" ≠ "page")]

/-- With the page sentinel (or no page window), `applyRest` leaves the
`page` query parameter alone. -/
theorem applyRest_getQuery_page_sentinel (o : ListOptions) (r : Request)
    (h : ¬∃ pw, o.pageOptions = some pw ∧ 0 < pw.page) :
    (applyRest o r).getQuery "page" = r.getQuery "page" := by
  have hq : (match o.pageOptions with
      | some pw => if 0 < pw.page then r.setQuery "page" (toString pw.page) else r
      | none => r) = r := by
    cases hpo : o.pageOptions with
    | none => simp
    | some pw =>
      have : ¬0 < pw.page := fun hp => h ⟨pw, hpo, hp⟩
      simp [this]
  by_cases hs : 0 < o.pageSize <;>
    by_cases hf : 0 < o.filter.length <;>
      simp [applyRest, hq, hs, hf, getQuery_setHeader, getQuery_setQuery_self,
        getQuery_setQuery_ne _ _ _ _ (by decide : "page_size" ≠ "page")]

theorem apply_getQuery_page_pos (o : ListOptions) (pw : PageOptions) (r0 r : Request)
    (m : List (String × String))
    (h : o.pageOptions = some pw) (hp : 0 < pw.page)
    (hm : flattenOpt o.queryParams = .ok m)
    (ha : applyListOptionsToRequest (some o) r0 = .ok r) :
    r.getQuery "page" = some (toString pw.page) := by
  rw [apply_of_flattenOpt o r0 m hm] at ha
  cases ha
  exact applyRest_getQuery_page_pos o pw _ h hp

/-- The first request of a fetch-all run carries no `page` parameter when
the flattened QueryParams do not define one. -/
theorem apply_getQuery_page_none (o : ListOptions) (r : Request)
    (m : List (String × String))
    (h : ¬∃ pw, o.pageOptions = some pw ∧ 0 < pw.page)
    (hm : flattenOpt o.queryParams = .ok m) (hmp : assocGet m "page" = none)
    (ha : applyListOptionsToRequest (some o) emptyRequest = .ok r) :
    r.getQuery "page" = none := by
  rw [apply_of_flattenOpt o emptyRequest m hm] at ha
  cases ha
  rw [applyRest_getQuery_page_sentinel o _ h,
    getQuery_setQueryParams_none m emptyRequest "page" hmp]
  rfl

/-! ## Lemmas: one `listHelper` frame -/

/-- A failing `applyListOptionsToRequest` aborts before any request. -/
theorem listHelperFuel_apply_error (g : Server) (fuel : Nat) (opts : Option ListOptions)
    (acc : List Int) (reqs : List Request) (e : String)
    (h : applyListOptionsToRequest opts emptyRequest = .error e) :
    listHelperFuel g (fuel + 1) opts acc reqs = ⟨some e, opts, acc, reqs⟩ := by
  rw [listHelperFuel]
  simp [h]

/-- A failing `castResult` aborts after the one request it issued, without
touching the options. -/
theorem listHelperFuel_server_error (g : Server) (fuel : Nat) (opts : Option ListOptions)
    (acc : List Int) (reqs : List Request) (r : Request) (e : String)
    (ha : applyListOptionsToRequest opts emptyRequest = .ok r) (hg : g r = .error e) :
    listHelperFuel g (fuel + 1) opts acc reqs = ⟨some e, opts, acc, reqs ++ [r]⟩ := by
  rw [listHelperFuel]
  simp [ha, hg]

/-- A call whose options carry a non-zero page number performs exactly one
fetch and writes the reported totals back — the single-page path of
`listHelper`, independent of the remaining fuel. -/
theorem listHelperFuel_single (g : Server) (fuel : Nat) (o : ListOptions) (pw : PageOptions)
    (acc : List Int) (reqs : List Request) (r : Request) (d : PageData)
    (hpw : o.pageOptions = some pw) (hp : pw.page ≠ 0)
    (ha : applyListOptionsToRequest (some o) emptyRequest = .ok r) (hg : g r = .ok d) :
    listHelperFuel g (fuel + 1) (some o) acc reqs =
      ⟨none, some (writeTotals o d.pages d.results), acc ++ d.items, reqs ++ [r]⟩ := by
  rw [listHelperFuel]
  have hnorm : normalizePageOptions o = o := normalizePageOptions_of_some o pw hpw
  simp [ha, hg, hnorm, page_of_some o pw hpw, hp]

/-! ## Lemmas: the page ranges of the fetch-all loop -/

/-- The list `[a, a+1, ..., a+len-1]`. -/
def pageSeg (a : Int) (len : Nat) : List Int :=
  (List.range len).map (fun (i : Nat) => a + (i : Int))

theorem pageList_eq_pageSeg (pages : Int) : pageList pages = pageSeg 2 (pages - 1).toNat := rfl

theorem pageSeg_succ (a : Int) (m : Nat) : pageSeg a (m + 1) = pageSeg a m ++ [a + (m : Int)] := by
  simp [pageSeg, List.range_succ]

theorem pageSeg_cons (a : Int) (m : Nat) : pageSeg a (m + 1) = a :: pageSeg (a + 1) m := by
  simp only [pageSeg, List.range_succ_eq_map, List.map_cons, List.map_map]
  congr 1
  · simp
  · refine List.map_congr_left (fun i _ => ?_)
    simp only [Function.comp_apply, Nat.succ_eq_add_one]
    push_cast
    ring

theorem pageSeg_append (a : Int) (m k : Nat) :
    pageSeg a (m + k) = pageSeg a m ++ pageSeg (a + (m : Int)) k := by
  simp only [pageSeg, List.range_add m k, List.map_append, List.map_map]
  congr 1
  refine List.map_congr_left (fun i _ => ?_)
  simp only [Function.comp_apply]
  push_cast
  ring

theorem mem_pageSeg {p a : Int} {m : Nat} : p ∈ pageSeg a m ↔ a ≤ p ∧ p < a + (m : Int) := by
  unfold pageSeg
  rw [List.mem_map]
  constructor
  · rintro ⟨i, hi, rfl⟩
    rw [List.mem_range] at hi
    omega
  · intro h
    refine ⟨(p - a).toNat, ?_, ?_⟩
    · rw [List.mem_range]
      omega
    · omega

theorem getLast?_pageSeg (a : Int) (m : Nat) :
    (pageSeg a (m + 1)).getLast? = some (a + (m : Int)) := by
  rw [pageSeg_succ]
  exact List.getLast?_concat _

theorem mem_pageList_two_le {p pages : Int} (h : p ∈ pageList pages) : 2 ≤ p := by
  rw [pageList_eq_pageSeg] at h
  exact (mem_pageSeg.mp h).1

/-- For a nonnegative page total the loop range is `[2, ..., n]`. -/
theorem pageList_natCast (n : Nat) : pageList (n : Int) = pageSeg 2 (n - 1) := by
  rw [pageList_eq_pageSeg]
  congr 1
  omega

/-! ## Lemmas: window preservation -/

theorem isSome_setPage (o : ListOptions) (p : Int) :
    (setPage o p).pageOptions.isSome = o.pageOptions.isSome := by
  cases h : o.pageOptions <;> simp [setPage, h]

theorem isSome_writeTotals (o : ListOptions) (a b : Int) :
    (writeTotals o a b).pageOptions.isSome = o.pageOptions.isSome := by
  cases h : o.pageOptions <;> simp [writeTotals, h]

theorem isSome_normalize (o : ListOptions) :
    (normalizePageOptions o).pageOptions.isSome := by
  cases h : o.pageOptions <;> simp [normalizePageOptions, h]

/-! ## Lemmas: the fetch-all loop -/

/-- Pushing the first completed iteration inside `loopExit`: each iteration
overwrites all three fields of the page window, so only the last one
matters. -/
theorem loopExit_cons (d : Int → PageData) (o : ListOptions) (p : Int) (t : List Int)
    (ho : o.pageOptions.isSome) :
    loopExit d o (p :: t) =
      loopExit d (writeTotals (setPage o p) (d p).pages (d p).results) t := by
  cases t with
  | nil => simp [loopExit]
  | cons q tt =>
    have h1 : (writeTotals (setPage o p) (d p).pages (d p).results).pageOptions.isSome := by
      rw [isSome_writeTotals, isSome_setPage]
      exact ho
    have hs : staticEq (writeTotals (setPage o p) (d p).pages (d p).results) o :=
      staticEq_trans (staticEq_writeTotals _ _ _) (staticEq_setPage o p)
    obtain ⟨l, hl⟩ : ∃ l, (q :: tt).getLast? = some l := by
      cases hq : (q :: tt).getLast? with
      | none => exact absurd (List.getLast?_eq_none_iff.mp hq) (by simp)
      | some l => exact ⟨l, rfl⟩
    simp only [loopExit, List.getLast?_cons_cons, hl]
    exact (writeTotals_setPage_congr l (d l).pages (d l).results hs h1 ho).symm

/-- A run of the loop of source lines 115–120 in which every recursive call
succeeds: every page of `ps` is fetched once, in order, and the state left
behind is that of the last iteration. -/
theorem pageLoop_ok (step : Option ListOptions → List Int → List Request → LHOut)
    (b : ListOptions) (d : Int → PageData) (rq : Int → Request) (ps : List Int) :
    ∀ (o : ListOptions) (acc : List Int) (reqs : List Request),
      staticEq o b → o.pageOptions.isSome →
      (∀ p ∈ ps, ∀ (o' : ListOptions) (a : List Int) (r : List Request),
          staticEq o' b → o'.pageOptions.isSome →
          step (some (setPage o' p)) a r =
            ⟨none, some (writeTotals (setPage o' p) (d p).pages (d p).results),
             a ++ (d p).items, r ++ [rq p]⟩) →
      pageLoop step ps o acc reqs =
        (none, loopExit d o ps,
         acc ++ (ps.map (fun p => (d p).items)).flatten, reqs ++ ps.map rq) := by
  induction ps with
  | nil => intro o acc reqs _ _ _; simp [pageLoop, loopExit]
  | cons p rest ih =>
    intro o acc reqs hs ho hstep
    have h1 := hstep p (by simp) o acc reqs hs ho
    rw [pageLoop, h1]
    have ho1 : (writeTotals (setPage o p) (d p).pages (d p).results).pageOptions.isSome := by
      rw [isSome_writeTotals, isSome_setPage]; exact ho
    have hs1 : staticEq (writeTotals (setPage o p) (d p).pages (d p).results) b :=
      staticEq_trans (staticEq_trans (staticEq_writeTotals _ _ _) (staticEq_setPage o p)) hs
    have := ih (writeTotals (setPage o p) (d p).pages (d p).results)
      (acc ++ (d p).items) (reqs ++ [rq p]) hs1 ho1
      (fun q hq => hstep q (by simp [hq]))
    simp only [Option.getD_some]
    rw [this, loopExit_cons d o p rest ho]
    simp

/-- A run of the loop in which the pages of `good` succeed and then page
`k` fails: the error propagates at once, the requests stop at page `k`,
the accumulated items of `good` remain, and the failing frame leaves the
options exactly as the last successful frame left them, with only the page
number advanced to `k` (line 116 runs before the failing recursive call;
lines 123–124 of the aborting frames do not). -/
theorem pageLoop_fail (step : Option ListOptions → List Int → List Request → LHOut)
    (b : ListOptions) (d : Int → PageData) (rq : Int → Request) (e : String)
    (k : Int) (rest : List Int) (good : List Int) :
    ∀ (o : ListOptions) (acc : List Int) (reqs : List Request),
      staticEq o b → o.pageOptions.isSome →
      (∀ p ∈ good, ∀ (o' : ListOptions) (a : List Int) (r : List Request),
          staticEq o' b → o'.pageOptions.isSome →
          step (some (setPage o' p)) a r =
            ⟨none, some (writeTotals (setPage o' p) (d p).pages (d p).results),
             a ++ (d p).items, r ++ [rq p]⟩) →
      (∀ (o' : ListOptions) (a : List Int) (r : List Request),
          staticEq o' b → o'.pageOptions.isSome →
          step (some (setPage o' k)) a r = ⟨some e, some (setPage o' k), a, r ++ [rq k]⟩) →
      pageLoop step (good ++ k :: rest) o acc reqs =
        (some e, setPage (loopExit d o good) k,
         acc ++ (good.map (fun p => (d p).items)).flatten, reqs ++ good.map rq ++ [rq k]) := by
  induction good with
  | nil =>
    intro o acc reqs hs ho _ hk
    have h1 := hk o acc reqs hs ho
    rw [List.nil_append, pageLoop, h1]
    simp [loopExit]
  | cons p rest2 ih =>
    intro o acc reqs hs ho hstep hk
    have h1 := hstep p (by simp) o acc reqs hs ho
    rw [List.cons_append, pageLoop, h1]
    have ho1 : (writeTotals (setPage o p) (d p).pages (d p).results).pageOptions.isSome := by
      rw [isSome_writeTotals, isSome_setPage]; exact ho
    have hs1 : staticEq (writeTotals (setPage o p) (d p).pages (d p).results) b :=
      staticEq_trans (staticEq_trans (staticEq_writeTotals _ _ _) (staticEq_setPage o p)) hs
    have := ih (writeTotals (setPage o p) (d p).pages (d p).results)
      (acc ++ (d p).items) (reqs ++ [rq p]) hs1 ho1
      (fun q hq => hstep q (by simp [hq])) hk
    simp only [Option.getD_some]
    rw [this, loopExit_cons d o p rest2 ho]
    simp

theorem staticEq_symm {o1 o2 : ListOptions} (h : staticEq o1 o2) : staticEq o2 o1 :=
  ⟨h.1.symm, h.2.1.symm, h.2.2.symm⟩

/-- Characterization of a successful fetch-all run: entering `listHelper`
with the page sentinel fetches page 1, then every page of
`pageList totalPages` in ascending order, concatenates the items in that
order, and finally writes the totals of the FIRST response into the
options (source lines 123–124 run last in the outermost frame). -/
theorem fetchAll_sentinel (g : Server) (o : ListOptions) (pw : PageOptions)
    (d1 : PageData) (d : Int → PageData) (r1 : Request) (rq : Int → Request)
    (hpw : o.pageOptions = some pw) (hpage : pw.page = 0)
    (ha : applyListOptionsToRequest (some o) emptyRequest = .ok r1)
    (hg1 : g r1 = .ok d1)
    (hrq : ∀ p ∈ pageList d1.pages,
        applyListOptionsToRequest (some (setPage o p)) emptyRequest = .ok (rq p))
    (hgp : ∀ p ∈ pageList d1.pages, g (rq p) = .ok (d p)) :
    fetchAll g (some o) =
      ⟨none, some (writeTotals (loopExit d o (pageList d1.pages)) d1.pages d1.results),
       d1.items ++ ((pageList d1.pages).map (fun p => (d p).items)).flatten,
       r1 :: (pageList d1.pages).map rq⟩ := by
  have hstep : ∀ p ∈ pageList d1.pages, ∀ (o' : ListOptions) (a : List Int) (r : List Request),
      staticEq o' o → o'.pageOptions.isSome →
      (fun oo a r => listHelperFuel g 1 oo a r) (some (setPage o' p)) a r =
        ⟨none, some (writeTotals (setPage o' p) (d p).pages (d p).results),
         a ++ (d p).items, r ++ [rq p]⟩ := by
    intro p hp o' a r hso' ho'
    obtain ⟨pw0, hpw0⟩ := Option.isSome_iff_exists.mp ho'
    have hp2 : p ≠ 0 := by
      have := mem_pageList_two_le hp
      omega
    have hsp : staticEq (setPage o' p) (setPage o p) := hso'
    have happ : applyListOptionsToRequest (some (setPage o' p)) emptyRequest = .ok (rq p) := by
      rw [apply_staticEq emptyRequest { pw0 with page := p } { pw with page := p } hsp
        (pageOptions_setPage o' pw0 p hpw0) (pageOptions_setPage o pw p hpw) rfl]
      exact hrq p hp
    exact listHelperFuel_single g 0 (setPage o' p) { pw0 with page := p } a r (rq p) (d p)
      (pageOptions_setPage o' pw0 p hpw0) (by simpa using hp2) happ (hgp p hp)
  have hloop := pageLoop_ok (fun oo a r => listHelperFuel g 1 oo a r) o d rq
    (pageList d1.pages) o d1.items [r1] (staticEq_refl o) (by simp [hpw]) hstep
  rw [fetchAll, show (2 : Nat) = 1 + 1 from rfl, listHelperFuel]
  simp only [ha, hg1, Option.getD_some, normalizePageOptions_of_some o pw hpw,
    page_of_some o pw hpw, hpage, List.nil_append]
  rw [hloop]
  simp

/-! ## Lemmas: the fuel never truncates a reachable run -/

/-- The fetch-all path of one frame: with the sentinel page after
normalization, the frame runs the loop over `pageList totalPages` and, on
success, writes the first response's totals. -/
theorem listHelperFuel_sentinel_step (g : Server) (f : Nat) (opts : Option ListOptions)
    (acc : List Int) (reqs : List Request) (r : Request) (d : PageData)
    (ha : applyListOptionsToRequest opts emptyRequest = .ok r) (hg : g r = .ok d)
    (hpg : (normalizePageOptions (opts.getD defaultListOptions)).page = 0) :
    listHelperFuel g (f + 1) opts acc reqs =
      match pageLoop (fun oo a rr => listHelperFuel g f oo a rr) (pageList d.pages)
          (normalizePageOptions (opts.getD defaultListOptions)) (acc ++ d.items) (reqs ++ [r]) with
      | (some e, o2, a2, r2) => ⟨some e, some o2, a2, r2⟩
      | (none, o2, a2, r2) => ⟨none, some (writeTotals o2 d.pages d.results), a2, r2⟩ := by
  rw [listHelperFuel]
  simp [ha, hg, hpg]

theorem listHelperFuel_window_pres (g : Server) :
    ∀ (fuel : Nat) (x : ListOptions) (a : List Int) (r : List Request),
      x.pageOptions.isSome →
      ∃ y, (listHelperFuel g fuel (some x) a r).opts = some y ∧ y.pageOptions.isSome := by
  intro fuel
  induction fuel with
  | zero => intro x a r hx; exact ⟨x, rfl, hx⟩
  | succ f ih =>
    intro x a r hx
    obtain ⟨pwx, hpwx⟩ := Option.isSome_iff_exists.mp hx
    cases ha : applyListOptionsToRequest (some x) emptyRequest with
    | error e =>
      rw [listHelperFuel_apply_error g f (some x) a r e ha]
      exact ⟨x, rfl, hx⟩
    | ok req =>
      cases hg : g req with
      | error e =>
        rw [listHelperFuel_server_error g f (some x) a r req e ha hg]
        exact ⟨x, rfl, hx⟩
      | ok d =>
        by_cases hpz : pwx.page = 0
        · have hpg : (normalizePageOptions ((some x).getD defaultListOptions)).page = 0 := by
            simp only [Option.getD_some]
            rw [normalizePageOptions_of_some x pwx hpwx, page_of_some x pwx hpwx]
            exact hpz
          rw [listHelperFuel_sentinel_step g f (some x) a r req d ha hg hpg]
          simp only [Option.getD_some, normalizePageOptions_of_some x pwx hpwx]
          have hloop : ∀ (ps : List Int) (o : ListOptions) (aa : List Int) (rr : List Request),
              o.pageOptions.isSome →
              (pageLoop (fun oo aa rr => listHelperFuel g f oo aa rr) ps o aa rr).2.1.pageOptions.isSome := by
            intro ps
            induction ps with
            | nil => intro o aa rr ho; simpa [pageLoop] using ho
            | cons p t iht =>
              intro o aa rr ho
              rw [pageLoop]
              have hsp : (setPage o p).pageOptions.isSome := by
                rw [isSome_setPage]
                exact ho
              obtain ⟨y, hy, hys⟩ := ih (setPage o p) aa rr hsp
              rcases hres : listHelperFuel g f (some (setPage o p)) aa rr with ⟨err, oo, a2, r2⟩
              rw [hres] at hy
              simp only at hy
              subst hy
              cases err with
              | some e => simpa [hres] using hys
              | none => simpa [hres] using iht y a2 r2 hys
          rcases hres : pageLoop (fun oo aa rr => listHelperFuel g f oo aa rr)
              (pageList d.pages) x (a ++ d.items) (r ++ [req]) with ⟨err, o2, a2, r2⟩
          have ho2 : o2.pageOptions.isSome := by
            have := hloop (pageList d.pages) x (a ++ d.items) (r ++ [req]) hx
            rw [hres] at this
            exact this
          cases err with
          | some e => exact ⟨o2, rfl, ho2⟩
          | none =>
            refine ⟨writeTotals o2 d.pages d.results, rfl, ?_⟩
            rw [isSome_writeTotals]
            exact ho2
        · rw [listHelperFuel_single g f x pwx a r req d hpwx hpz ha hg]
          refine ⟨writeTotals x d.pages d.results, rfl, ?_⟩
          rw [isSome_writeTotals]
          exact hx

/-- The single-page path does not depend on the remaining fuel: a call
whose options carry a non-zero page never recurses. -/
theorem listHelperFuel_page_nonzero_fuel (g : Server) (f1 f2 : Nat) (o : ListOptions)
    (pw : PageOptions) (acc : List Int) (reqs : List Request)
    (hpw : o.pageOptions = some pw) (hp : pw.page ≠ 0) :
    listHelperFuel g (f1 + 1) (some o) acc reqs = listHelperFuel g (f2 + 1) (some o) acc reqs := by
  cases ha : applyListOptionsToRequest (some o) emptyRequest with
  | error e =>
    rw [listHelperFuel_apply_error g f1 _ _ _ _ ha, listHelperFuel_apply_error g f2 _ _ _ _ ha]
  | ok r =>
    cases hg : g r with
    | error e =>
      rw [listHelperFuel_server_error g f1 _ _ _ _ _ ha hg,
        listHelperFuel_server_error g f2 _ _ _ _ _ ha hg]
    | ok d =>
      rw [listHelperFuel_single g f1 o pw _ _ _ _ hpw hp ha hg,
        listHelperFuel_single g f2 o pw _ _ _ _ hpw hp ha hg]

theorem pageLoop_congr (step1 step2 : Option ListOptions → List Int → List Request → LHOut)
    (ps : List Int) :
    ∀ (o : ListOptions) (acc : List Int) (reqs : List Request),
      o.pageOptions.isSome →
      (∀ p ∈ ps, ∀ (x : ListOptions), x.pageOptions.isSome → ∀ a r,
          step1 (some (setPage x p)) a r = step2 (some (setPage x p)) a r) →
      (∀ (x : ListOptions) (a : List Int) (r : List Request), x.pageOptions.isSome →
          ∃ y, (step1 (some x) a r).opts = some y ∧ y.pageOptions.isSome) →
      pageLoop step1 ps o acc reqs = pageLoop step2 ps o acc reqs := by
  induction ps with
  | nil => intro o acc reqs _ _ _; rfl
  | cons p t ih =>
    intro o acc reqs ho hagree hpres
    rw [pageLoop, pageLoop, hagree p (by simp) o ho acc reqs]
    have hsp : (setPage o p).pageOptions.isSome := by
      rw [isSome_setPage]; exact ho
    obtain ⟨y, hy, hys⟩ := hpres (setPage o p) acc reqs hsp
    rw [hagree p (by simp) o ho acc reqs] at hy
    rcases hres : step2 (some (setPage o p)) acc reqs with ⟨err, oo, a2, r2⟩
    rw [hres] at hy
    simp only at hy
    subst hy
    cases err with
    | some e => rfl
    | none =>
      simp only [Option.getD_some]
      exact ih y a2 r2 hys (fun q hq => hagree q (by simp [hq])) hpres

/-- Fuel 2 computes the same result as any larger fuel: the recursion of
`listHelper` is at most two frames deep, so `fetchAll`'s choice of fuel 2
is not a truncation of the Go recursion. -/
theorem listHelperFuel_fuel_irrelevant (g : Server) (f : Nat) (opts : Option ListOptions)
    (acc : List Int) (reqs : List Request) :
    listHelperFuel g (f + 2) opts acc reqs = listHelperFuel g 2 opts acc reqs := by
  rw [show f + 2 = (f + 1) + 1 from rfl, show (2 : Nat) = 1 + 1 from rfl]
  rw [listHelperFuel]
  conv_rhs => rw [listHelperFuel]
  cases ha : applyListOptionsToRequest opts emptyRequest with
  | error e => simp [ha]
  | ok r =>
    cases hg : g r with
    | error e => simp [ha, hg]
    | ok d =>
      simp only [ha, hg]
      have hcongr := pageLoop_congr (fun oo aa rr => listHelperFuel g (f + 1) oo aa rr)
        (fun oo aa rr => listHelperFuel g 1 oo aa rr) (pageList d.pages)
        (normalizePageOptions (opts.getD defaultListOptions)) (acc ++ d.items) (reqs ++ [r])
        (isSome_normalize _)
        (by
          intro p hp x hx a' r'
          obtain ⟨pwx, hpwx⟩ := Option.isSome_iff_exists.mp hx
          have hp2 : p ≠ 0 := by
            have := mem_pageList_two_le hp
            omega
          exact listHelperFuel_page_nonzero_fuel g f 0 (setPage x p) { pwx with page := p } a' r'
            (pageOptions_setPage x pwx p hpwx) (by simpa using hp2))
        (fun x a' r' hx => listHelperFuel_window_pres g (f + 1) x a' r' hx)
      simp only at hcongr
      rw [hcongr]

/-- Characterization of an aborted fetch-all run: the pages of `good`
succeed, page `k` fails with `e`; the error is returned at once, no page
after `k` is requested, the items accumulated by pages `1` and `good`
remain, and the frame that aborts writes nothing back: the final options
hold the last successful frame's totals with only the page number already
advanced to `k`. -/
theorem fetchAll_sentinel_fail (g : Server) (o : ListOptions) (pw : PageOptions)
    (d1 : PageData) (d : Int → PageData) (r1 : Request) (rq : Int → Request)
    (e : String) (k : Int) (good rest : List Int)
    (hpw : o.pageOptions = some pw) (hpage : pw.page = 0)
    (ha : applyListOptionsToRequest (some o) emptyRequest = .ok r1)
    (hg1 : g r1 = .ok d1)
    (hsplit : pageList d1.pages = good ++ k :: rest)
    (hrq : ∀ p ∈ good, applyListOptionsToRequest (some (setPage o p)) emptyRequest = .ok (rq p))
    (hgp : ∀ p ∈ good, g (rq p) = .ok (d p))
    (hrqk : applyListOptionsToRequest (some (setPage o k)) emptyRequest = .ok (rq k))
    (hgk : g (rq k) = .error e) :
    fetchAll g (some o) =
      ⟨some e, some (setPage (loopExit d o good) k),
       d1.items ++ (good.map (fun p => (d p).items)).flatten,
       r1 :: (good.map rq ++ [rq k])⟩ := by
  have hmem : ∀ p ∈ good, p ∈ pageList d1.pages := by
    intro p hp
    rw [hsplit]
    exact List.mem_append.mpr (Or.inl hp)
  have hkmem : k ∈ pageList d1.pages := by
    rw [hsplit]
    exact List.mem_append.mpr (Or.inr (by simp))
  have hstep : ∀ p ∈ good, ∀ (o' : ListOptions) (a : List Int) (r : List Request),
      staticEq o' o → o'.pageOptions.isSome →
      (fun oo a r => listHelperFuel g 1 oo a r) (some (setPage o' p)) a r =
        ⟨none, some (writeTotals (setPage o' p) (d p).pages (d p).results),
         a ++ (d p).items, r ++ [rq p]⟩ := by
    intro p hp o' a r hso' ho'
    obtain ⟨pw0, hpw0⟩ := Option.isSome_iff_exists.mp ho'
    have hp2 : p ≠ 0 := by
      have := mem_pageList_two_le (hmem p hp)
      omega
    have hsp : staticEq (setPage o' p) (setPage o p) := hso'
    have happ : applyListOptionsToRequest (some (setPage o' p)) emptyRequest = .ok (rq p) := by
      rw [apply_staticEq emptyRequest { pw0 with page := p } { pw with page := p } hsp
        (pageOptions_setPage o' pw0 p hpw0) (pageOptions_setPage o pw p hpw) rfl]
      exact hrq p hp
    exact listHelperFuel_single g 0 (setPage o' p) { pw0 with page := p } a r (rq p) (d p)
      (pageOptions_setPage o' pw0 p hpw0) (by simpa using hp2) happ (hgp p hp)
  have hkstep : ∀ (o' : ListOptions) (a : List Int) (r : List Request),
      staticEq o' o → o'.pageOptions.isSome →
      (fun oo a r => listHelperFuel g 1 oo a r) (some (setPage o' k)) a r =
        ⟨some e, some (setPage o' k), a, r ++ [rq k]⟩ := by
    intro o' a r hso' ho'
    obtain ⟨pw0, hpw0⟩ := Option.isSome_iff_exists.mp ho'
    have hsp : staticEq (setPage o' k) (setPage o k) := hso'
    have happ : applyListOptionsToRequest (some (setPage o' k)) emptyRequest = .ok (rq k) := by
      rw [apply_staticEq emptyRequest { pw0 with page := k } { pw with page := k } hsp
        (pageOptions_setPage o' pw0 k hpw0) (pageOptions_setPage o pw k hpw) rfl]
      exact hrqk
    exact listHelperFuel_server_error g 0 (some (setPage o' k)) a r (rq k) e happ hgk
  have hloop := pageLoop_fail (fun oo a r => listHelperFuel g 1 oo a r) o d rq e k rest good
    o d1.items [r1] (staticEq_refl o) (by simp [hpw]) hstep hkstep
  rw [fetchAll, show (2 : Nat) = 1 + 1 from rfl, listHelperFuel]
  simp only [ha, hg1, Option.getD_some, normalizePageOptions_of_some o pw hpw,
    page_of_some o pw hpw, hpage, List.nil_append]
  rw [hsplit, hloop]
  simp

/-! ## Lemmas: the query flattener -/

/-- A field that is untagged or holds its zero value contributes nothing:
removing it does not change the flattening result (success or failure). -/
theorem flattenFields_skip (f : QStructField) (hf : f.tag = none ∨ f.val.isZero = true) :
    ∀ (fs1 fs2 : List QStructField) (acc : List (String × String)),
      flattenFields acc (fs1 ++ f :: fs2) = flattenFields acc (fs1 ++ fs2) := by
  intro fs1
  induction fs1 with
  | nil =>
    intro fs2 acc
    cases hf with
    | inl h => simp [flattenFields, h]
    | inr h =>
      cases ht : f.tag with
      | none => simp [flattenFields, ht]
      | some t => simp [flattenFields, ht, h]
  | cons gfld t ih =>
    intro fs2 acc
    simp only [List.cons_append, flattenFields]
    cases hgt : gfld.tag with
    | none => exact ih fs2 acc
    | some tg =>
      by_cases hz : gfld.val.isZero
      · simp only [hz, if_pos]
        exact ih fs2 acc
      · simp only [hz, if_neg, Bool.false_eq_true, not_false_iff, if_false]
        cases hq : queryFieldToString gfld.val.goDeref with
        | error e => rfl
        | ok s => exact ih fs2 (assocSet acc tg s)

/-- Every entry of the flattened map either was already in the
accumulator or came from a tagged, non-zero field, stringified. -/
theorem flattenFields_entries :
    ∀ (fs : List QStructField) (acc m : List (String × String)) (t s : String),
      flattenFields acc fs = .ok m → assocGet m t = some s →
      assocGet acc t = some s ∨
        ∃ f ∈ fs, f.tag = some t ∧ f.val.isZero = false ∧
          queryFieldToString f.val.goDeref = .ok s := by
  intro fs
  induction fs with
  | nil =>
    intro acc m t s hok hget
    simp only [flattenFields, Except.ok.injEq] at hok
    subst hok
    exact Or.inl hget
  | cons f rest ih =>
    intro acc m t s hok hget
    rw [flattenFields] at hok
    cases htag : f.tag with
    | none =>
      simp only [htag] at hok
      rcases ih acc m t s hok hget with h | ⟨f', hf', h1, h2, h3⟩
      · exact Or.inl h
      · exact Or.inr ⟨f', by simp [hf'], h1, h2, h3⟩
    | some tg =>
      simp only [htag] at hok
      by_cases hz : f.val.isZero
      · rw [if_pos hz] at hok
        rcases ih acc m t s hok hget with h | ⟨f', hf', h1, h2, h3⟩
        · exact Or.inl h
        · exact Or.inr ⟨f', by simp [hf'], h1, h2, h3⟩
      · rw [if_neg hz] at hok
        cases hq : queryFieldToString f.val.goDeref with
        | error e => simp [hq] at hok
        | ok s' =>
          simp only [hq] at hok
          rcases ih (assocSet acc tg s') m t s hok hget with h | ⟨f', hf', h1, h2, h3⟩
          · by_cases hts : tg = t
            · subst hts
              rw [assocGet_assocSet_self] at h
              cases h
              exact Or.inr ⟨f, by simp, htag, by simpa using hz, hq⟩
            · rw [assocGet_assocSet_ne acc t tg s' hts] at h
              exact Or.inl h
          · exact Or.inr ⟨f', by simp [hf'], h1, h2, h3⟩

/-- If every tagged-`t` field of `fs` is zero or stringifies to `s`, a
binding `t ↦ s` already in the accumulator survives the whole loop. -/
theorem flattenFields_lookup_pres :
    ∀ (fs : List QStructField) (acc m : List (String × String)) (t s : String),
      flattenFields acc fs = .ok m →
      (∀ f ∈ fs, f.tag = some t → f.val.isZero = true ∨
          queryFieldToString f.val.goDeref = .ok s) →
      assocGet acc t = some s → assocGet m t = some s := by
  intro fs
  induction fs with
  | nil =>
    intro acc m t s hok _ hacc
    simp only [flattenFields, Except.ok.injEq] at hok
    subst hok
    exact hacc
  | cons f rest ih =>
    intro acc m t s hok hall hacc
    rw [flattenFields] at hok
    cases htag : f.tag with
    | none =>
      simp only [htag] at hok
      exact ih acc m t s hok (fun f' hf' => hall f' (by simp [hf'])) hacc
    | some tg =>
      simp only [htag] at hok
      by_cases hz : f.val.isZero
      · rw [if_pos hz] at hok
        exact ih acc m t s hok (fun f' hf' => hall f' (by simp [hf'])) hacc
      · rw [if_neg hz] at hok
        cases hq : queryFieldToString f.val.goDeref with
        | error e => simp [hq] at hok
        | ok s' =>
          simp only [hq] at hok
          by_cases hts : tg = t
          · subst hts
            have := hall f (by simp) htag
            rcases this with h | h
            · exact absurd h (by simpa using hz)
            · rw [hq] at h
              cases h
              refine ih _ m tg s hok (fun f' hf' => hall f' (by simp [hf'])) ?_
              exact assocGet_assocSet_self acc tg s
          · refine ih _ m t s hok (fun f' hf' => hall f' (by simp [hf'])) ?_
            rw [assocGet_assocSet_ne acc t tg s' hts]
            exact hacc

/-- A tagged non-zero field whose stringification succeeds ends up in the
map, provided every other field sharing its tag agrees (is zero or yields
the same string). -/
theorem flattenFields_mem :
    ∀ (fs : List QStructField) (acc m : List (String × String)) (f : QStructField) (t s : String),
      f ∈ fs → f.tag = some t → f.val.isZero = false →
      queryFieldToString f.val.goDeref = .ok s →
      (∀ g' ∈ fs, g'.tag = some t → g'.val.isZero = true ∨
          queryFieldToString g'.val.goDeref = .ok s) →
      flattenFields acc fs = .ok m → assocGet m t = some s := by
  intro fs
  induction fs with
  | nil => intro acc m f t s hf; cases hf
  | cons g rest ih =>
    intro acc m f t s hf htag hz hq hall hok
    rw [flattenFields] at hok
    rcases List.mem_cons.mp hf with rfl | hmem
    · simp only [htag] at hok
      rw [if_neg (by simp [hz])] at hok
      simp only [hq] at hok
      exact flattenFields_lookup_pres rest _ m t s hok
        (fun f' hf' => hall f' (by simp [hf'])) (assocGet_assocSet_self acc t s)
    · cases hgt : g.tag with
      | none =>
        simp only [hgt] at hok
        exact ih acc m f t s hmem htag hz hq (fun f' hf' => hall f' (by simp [hf'])) hok
      | some tg =>
        simp only [hgt] at hok
        by_cases hgz : g.val.isZero
        · rw [if_pos hgz] at hok
          exact ih acc m f t s hmem htag hz hq (fun f' hf' => hall f' (by simp [hf'])) hok
        · rw [if_neg hgz] at hok
          cases hgq : queryFieldToString g.val.goDeref with
          | error e => simp [hgq] at hok
          | ok s'' =>
            simp only [hgq] at hok
            exact ih _ m f t s hmem htag hz hq (fun f' hf' => hall f' (by simp [hf'])) hok

/-- Decidable equality for `Except`, used to evaluate concrete runs. -/
instance {ε α : Type} [DecidableEq ε] [DecidableEq α] : DecidableEq (Except ε α) := fun a b =>
  match a, b with
  | .ok x, .ok y =>
    if h : x = y then .isTrue (by rw [h]) else .isFalse (fun hc => h (Except.ok.inj hc))
  | .ok _, .error _ => .isFalse (fun hc => Except.noConfusion hc)
  | .error _, .ok _ => .isFalse (fun hc => Except.noConfusion hc)
  | .error x, .error y =>
    if h : x = y then .isTrue (by rw [h]) else .isFalse (fun hc => h (Except.error.inj hc))

/-! ## Lemmas: the digest and its hex encoding -/

theorem bytesBE_length (k : Nat) : ∀ n : Nat, (bytesBE k n).length = k := by
  induction k with
  | zero => intro n; rfl
  | succ j ih => intro n; simp [bytesBE, ih]

theorem bytesBE_lt (k : Nat) : ∀ (n : Nat) (b : Nat), b ∈ bytesBE k n → b < 256 := by
  induction k with
  | zero => intro n b hb; cases hb
  | succ j ih =>
    intro n b hb
    rw [bytesBE] at hb
    rcases List.mem_append.mp hb with h | h
    · exact ih _ b h
    · rcases List.mem_singleton.mp h with rfl
      exact Nat.mod_lt _ (by decide)

/-- The digest is 32 bytes (256 bits). -/
theorem sha256_length (msg : List Nat) : (sha256 msg).length = 32 := by
  simp [sha256, bytesBE_length]

theorem sha256_lt (msg : List Nat) : ∀ b ∈ sha256 msg, b < 256 := by
  intro b hb
  rw [sha256] at hb
  simp only [List.mem_append] at hb
  rcases hb with ((((((h | h) | h) | h) | h) | h) | h) | h <;> exact bytesBE_lt 4 _ b h

theorem hexDigit_mem (n : Nat) : hexDigit n ∈ lowerHexChars := by
  have h : ∀ m, m < 16 → hexDigitAux m ∈ lowerHexChars := by decide
  exact h (n % 16) (Nat.mod_lt _ (by decide))

theorem hexEncode_length (bs : List Nat) : (hexEncode bs).length = 2 * bs.length := by
  unfold hexEncode
  have h : ∀ l : List Nat, ((l.map byteToHex).flatten).length = 2 * l.length := by
    intro l
    induction l with
    | nil => rfl
    | cons b t ih =>
      simp only [List.map_cons, List.flatten_cons, List.length_append, ih]
      simp [byteToHex]
      ring
  simpa [String.length] using h bs

theorem hexEncode_chars (bs : List Nat) : ∀ c ∈ (hexEncode bs).data, c ∈ lowerHexChars := by
  intro c hc
  simp only [hexEncode] at hc
  obtain ⟨l, hl, hcl⟩ := List.mem_flatten.mp hc
  obtain ⟨b, _, rfl⟩ := List.mem_map.mp hl
  simp only [byteToHex, List.mem_cons] at hcl
  rcases hcl with rfl | rfl | h
  · exact hexDigit_mem _
  · exact hexDigit_mem _
  · cases h

/-! ## Lemmas: absent page window (normalization) -/

theorem normalize_none (o : ListOptions) (h : o.pageOptions = none) :
    normalizePageOptions o = { o with pageOptions := some ⟨0, 0, 0⟩ } := by
  simp [normalizePageOptions, h]

theorem normalizePageOptions_idem (o : ListOptions) :
    normalizePageOptions (normalizePageOptions o) = normalizePageOptions o := by
  cases h : o.pageOptions <;> simp [normalizePageOptions, h]

theorem page_normalize_none (o : ListOptions) (h : o.pageOptions = none) :
    (normalizePageOptions o).page = 0 := by
  rw [normalize_none o h]
  rfl

/-- With no page window, a request is built exactly as for the
normalized options: the synthesized window has page 0 and sets nothing. -/
theorem apply_normalize_none (o : ListOptions) (r : Request) (h : o.pageOptions = none) :
    applyListOptionsToRequest (some o) r =
      applyListOptionsToRequest (some (normalizePageOptions o)) r := by
  simp only [applyListOptionsToRequest, normalize_none o h]
  cases hqo : o.queryParams with
  | none =>
    simp only [hqo]
    simp [applyRest, h]
  | some qp =>
    simp only [hqo]
    cases hf : flattenQueryStruct qp with
    | error e => simp [hf]
    | ok m =>
      simp only [hf]
      simp [applyRest, h]

/-- A run entered with an absent page window behaves (error, accumulator,
requests) exactly like one entered with the window already normalized to
page 0 — lines 111–113 make the two states coincide after the first
fetch. -/
theorem fetchAll_none_window (g : Server) (o : ListOptions) (h : o.pageOptions = none) :
    (fetchAll g (some o)).err = (fetchAll g (some (normalizePageOptions o))).err ∧
    (fetchAll g (some o)).acc = (fetchAll g (some (normalizePageOptions o))).acc ∧
    (fetchAll g (some o)).reqs = (fetchAll g (some (normalizePageOptions o))).reqs := by
  have hap := apply_normalize_none o emptyRequest h
  rw [fetchAll, fetchAll, show (2 : Nat) = 1 + 1 from rfl]
  cases ha : applyListOptionsToRequest (some o) emptyRequest with
  | error e =>
    rw [listHelperFuel_apply_error g 1 _ _ _ _ ha,
      listHelperFuel_apply_error g 1 _ _ _ _ (hap ▸ ha)]
    exact ⟨rfl, rfl, rfl⟩
  | ok r =>
    cases hg : g r with
    | error e =>
      rw [listHelperFuel_server_error g 1 _ _ _ _ _ ha hg,
        listHelperFuel_server_error g 1 _ _ _ _ _ (hap ▸ ha) hg]
      exact ⟨rfl, rfl, rfl⟩
    | ok d =>
      have hpg : (normalizePageOptions ((some o).getD defaultListOptions)).page = 0 := by
        simpa using page_normalize_none o h
      have hpg2 : (normalizePageOptions ((some (normalizePageOptions o)).getD
          defaultListOptions)).page = 0 := by
        rw [Option.getD_some, normalizePageOptions_idem]
        exact page_normalize_none o h
      rw [listHelperFuel_sentinel_step g 1 (some o) [] [] r d ha hg hpg,
        listHelperFuel_sentinel_step g 1 (some (normalizePageOptions o)) [] [] r d
          (hap ▸ ha) hg hpg2]
      rw [Option.getD_some, Option.getD_some, normalizePageOptions_idem]
      exact ⟨rfl, rfl, rfl⟩

/-! ## Further small helpers -/

theorem pageSeg_length (a : Int) (len : Nat) : (pageSeg a len).length = len := by
  simp [pageSeg]

theorem isSome_loopExit (d : Int → PageData) (o : ListOptions) (ps : List Int)
    (h : o.pageOptions.isSome) : (loopExit d o ps).pageOptions.isSome := by
  cases hl : ps.getLast? with
  | none => simpa [loopExit, hl] using h
  | some p =>
    simp only [loopExit, hl]
    rw [isSome_writeTotals, isSome_setPage]
    exact h

theorem flattenOpt_of_apply_ok (o : ListOptions) (r0 r : Request)
    (ha : applyListOptionsToRequest (some o) r0 = .ok r) :
    ∃ m, flattenOpt o.queryParams = .ok m := by
  cases hq : o.queryParams with
  | none => exact ⟨[], rfl⟩
  | some qp =>
    simp only [applyListOptionsToRequest, hq] at ha
    cases hf : flattenQueryStruct qp with
    | error e => rw [hf] at ha; cases ha
    | ok m => exact ⟨m, by simpa [flattenOpt] using hf⟩

theorem headers_setQueryParams (m : List (String × String)) (r : Request) :
    (r.setQueryParams m).headers = r.headers := by
  induction m generalizing r with
  | nil => rfl
  | cons hd t ih =>
    rw [Request.setQueryParams]
    simpa [Request.setQueryParams, headers_setQuery] using ih (r.setQuery hd.1 hd.2)

/-! ## Lemmas: filter handling of `applyRest` -/

theorem applyRest_query_filter_indep (o : ListOptions) (r : Request) :
    (applyRest o r).query = (applyRest { o with filter := "" } r).query := by
  by_cases hf : 0 < o.filter.length <;>
    simp [applyRest, Request.setHeader, hf]

theorem applyRest_header_filter (o : ListOptions) (r : Request) (hf : 0 < o.filter.length) :
    (applyRest o r).getHeader "X-Filter" = some o.filter := by
  simp only [applyRest, hf, if_pos]
  exact getHeader_setHeader_self _ _ _

theorem applyRest_headers_nofilter (o : ListOptions) (r : Request) (hf : o.filter.length = 0) :
    (applyRest o r).headers = r.headers := by
  have : ¬0 < o.filter.length := by omega
  simp only [applyRest, this, if_neg, if_false]
  cases hpo : o.pageOptions with
  | none => by_cases hs : 0 < o.pageSize <;> simp [hs, headers_setQuery]
  | some pw =>
    by_cases hp : 0 < pw.page <;> by_cases hs : 0 < o.pageSize <;>
      simp [hp, hs, headers_setQuery]

/-! ## Concrete fixtures for witnesses and counterexamples -/

/-- Three pages, two items each, uniform reported totals. -/
def demoData : Option String → Except String PageData
  | none => .ok ⟨3, 6, [1, 2]⟩
  | some s =>
    if s = "2" then .ok ⟨3, 6, [3, 4]⟩
    else if s = "3" then .ok ⟨3, 6, [5, 6]⟩
    else .error "404"

def demoServer : Server := serverByPage demoData

/-- The per-page data of `demoServer` for pages 2 and 3. -/
def demoPages : Int → PageData :=
  fun p => if p = 2 then ⟨3, 6, [3, 4]⟩ else ⟨3, 6, [5, 6]⟩

/-- The request `listHelper` builds for page `p` of the demo options. -/
def demoReq : Int → Request := fun p => ⟨[("page", toString p)], []⟩

/-- Three pages whose reported totals drift: page 1 reports 5, page 2
reports 6, page 3 reports 7. -/
def driftData : Option String → Except String PageData
  | none => .ok ⟨3, 5, [1, 2]⟩
  | some s =>
    if s = "2" then .ok ⟨3, 6, [3, 4]⟩
    else if s = "3" then .ok ⟨3, 7, [5, 6]⟩
    else .error "404"

def driftServer : Server := serverByPage driftData

/-- Two pages; page 1 holds item 10, page 2 holds item 20. -/
def cxData : Option String → Except String PageData
  | none => .ok ⟨2, 4, [10]⟩
  | some s => if s = "2" then .ok ⟨2, 4, [20]⟩ else .error "404"

def cxServer : Server := serverByPage cxData

/-- Sentinel-page options whose extra query parameters smuggle in a
`page=2` parameter. -/
def cxOpts : ListOptions :=
  ⟨some ⟨0, 0, 0⟩, 0, "", some (.strukt [⟨"P", some "page", .str "2"⟩])⟩

/-- Four pages; pages 1 and 2 succeed, page 3 (and beyond) fail. -/
def failData : Option String → Except String PageData
  | none => .ok ⟨4, 8, [1, 2]⟩
  | some s => if s = "2" then .ok ⟨4, 8, [3, 4]⟩ else .error "boom"

def failServer : Server := serverByPage failData

def failPages : Int → PageData := fun _ => ⟨4, 8, [3, 4]⟩

/-! ## The claims -/

/-- C3: for every ListOptions whose page window is present with
`page == N > 0`, `listHelper` issues exactly one request, that request
carries the query parameter `page=N`, no recursion occurs (the outcome is
independent of the remaining recursion fuel), and the options'
totals are populated from that single server response. -/
theorem C3_single_page (g : Server) (o : ListOptions) (pw : PageOptions) (N : Int)
    (r : Request) (d : PageData)
    (hpw : o.pageOptions = some pw) (hN : pw.page = N) (hpos : 0 < N)
    (ha : applyListOptionsToRequest (some o) emptyRequest = .ok r)
    (hg : g r = .ok d) :
    (∀ fuel : Nat, listHelperFuel g (fuel + 1) (some o) [] [] =
        ⟨none, some (writeTotals o d.pages d.results), d.items, [r]⟩) ∧
    fetchAll g (some o) = ⟨none, some (writeTotals o d.pages d.results), d.items, [r]⟩ ∧
    r.getQuery "page" = some (toString N) ∧
    (writeTotals o d.pages d.results).pageOptions = some ⟨N, d.pages, d.results⟩ := by
  have hp : pw.page ≠ 0 := by omega
  have h1 : ∀ fuel : Nat, listHelperFuel g (fuel + 1) (some o) [] [] =
      ⟨none, some (writeTotals o d.pages d.results), d.items, [r]⟩ := by
    intro fuel
    simpa using listHelperFuel_single g fuel o pw [] [] r d hpw hp ha hg
  refine ⟨h1, h1 1, ?_, ?_⟩
  · obtain ⟨m, hm⟩ := flattenOpt_of_apply_ok o emptyRequest r ha
    have := apply_getQuery_page_pos o pw emptyRequest r m hpw (by omega) hm ha
    rw [this, hN]
  · rw [pageOptions_writeTotals o pw d.pages d.results hpw]
    cases pw
    simp_all

theorem C3_single_page_witness :
    ((NewListOptions 2 "").pageOptions = some ⟨2, 0, 0⟩ ∧ (0 : Int) < 2 ∧
     applyListOptionsToRequest (some (NewListOptions 2 "")) emptyRequest =
       .ok ⟨[("page", "2")], []⟩ ∧
     demoServer ⟨[("page", "2")], []⟩ = .ok ⟨3, 6, [3, 4]⟩) ∧
    ((∀ fuel : Nat, listHelperFuel demoServer (fuel + 1) (some (NewListOptions 2 "")) [] [] =
        ⟨none, some (writeTotals (NewListOptions 2 "") 3 6), [3, 4], [⟨[("page", "2")], []⟩]⟩) ∧
     fetchAll demoServer (some (NewListOptions 2 "")) =
       ⟨none, some (writeTotals (NewListOptions 2 "") 3 6), [3, 4], [⟨[("page", "2")], []⟩]⟩ ∧
     Request.getQuery ⟨[("page", "2")], []⟩ "page" = some (toString (2 : Int)) ∧
     (writeTotals (NewListOptions 2 "") 3 6).pageOptions = some ⟨2, 3, 6⟩) :=
  ⟨⟨rfl, by decide, by decide, by decide⟩,
   C3_single_page demoServer (NewListOptions 2 "") ⟨2, 0, 0⟩ 2 ⟨[("page", "2")], []⟩
     ⟨3, 6, [3, 4]⟩ rfl rfl (by decide) (by decide) (by decide)⟩

/-- C4: a query-annotated field holding its type's zero value contributes
nothing to the flattened map (removing it changes nothing, so a caller
cannot request a parameter explicitly set to its zero value: every entry
of the map provably comes from a non-zero annotated field); the same
record with the field non-zero has it included under its annotated name,
stringified per its kind (provided no other field claims the same name
with a different value — a later duplicate tag would overwrite). -/
theorem C4_zero_fields_omitted :
    (∀ (fs1 fs2 : List QStructField) (f : QStructField) (t : String),
        f.tag = some t → f.val.isZero = true →
        flattenQueryStruct (.strukt (fs1 ++ f :: fs2)) =
          flattenQueryStruct (.strukt (fs1 ++ fs2))) ∧
    (∀ (fs : List QStructField) (m : List (String × String)) (t s : String),
        flattenQueryStruct (.strukt fs) = .ok m → assocGet m t = some s →
        ∃ f ∈ fs, f.tag = some t ∧ f.val.isZero = false ∧
          queryFieldToString f.val.goDeref = .ok s) ∧
    (∀ (fs : List QStructField) (m : List (String × String)) (f : QStructField) (t s : String),
        f ∈ fs → f.tag = some t → f.val.isZero = false →
        queryFieldToString f.val.goDeref = .ok s →
        (∀ g' ∈ fs, g'.tag = some t → g'.val.isZero = true ∨
            queryFieldToString g'.val.goDeref = .ok s) →
        flattenQueryStruct (.strukt fs) = .ok m → assocGet m t = some s) := by
  refine ⟨?_, ?_, ?_⟩
  · intro fs1 fs2 f t ht hz
    show flattenFields [] (fs1 ++ f :: fs2) = flattenFields [] (fs1 ++ fs2)
    exact flattenFields_skip f (Or.inr hz) fs1 fs2 []
  · intro fs m t s hok hget
    rcases flattenFields_entries fs [] m t s hok hget with h | h
    · simp [assocGet] at h
    · exact h
  · intro fs m f t s hf ht hz hq hall hok
    exact flattenFields_mem fs [] m f t s hf ht hz hq hall hok

theorem C4_zero_fields_omitted_witness :
    ((⟨"A", some "a", QVal.str ""⟩ : QStructField).tag = some "a" ∧
     (QVal.str "").isZero = true ∧
     (QVal.int .iN 5).isZero = false ∧
     queryFieldToString (QVal.int .iN 5).goDeref = .ok "5" ∧
     flattenQueryStruct (.strukt [⟨"A", some "a", .str ""⟩, ⟨"B", some "b", .int .iN 5⟩]) =
       .ok [("b", "5")]) ∧
    flattenQueryStruct
        (.strukt ([] ++ (⟨"A", some "a", QVal.str ""⟩ : QStructField) ::
          [⟨"B", some "b", QVal.int .iN 5⟩])) =
      flattenQueryStruct (.strukt ([] ++ [⟨"B", some "b", QVal.int .iN 5⟩])) ∧
    assocGet [("b", "5")] "b" = some "5" :=
  ⟨⟨rfl, rfl, rfl, rfl, by decide⟩,
   C4_zero_fields_omitted.1 [] [⟨"B", some "b", .int .iN 5⟩] ⟨"A", some "a", .str ""⟩ "a" rfl rfl,
   C4_zero_fields_omitted.2.2 [⟨"A", some "a", .str ""⟩, ⟨"B", some "b", .int .iN 5⟩]
     [("b", "5")] ⟨"B", some "b", .int .iN 5⟩ "b" "5"
     (List.mem_cons_of_mem _ (List.mem_cons_self _ _)) rfl rfl rfl (by decide) (by decide)⟩

/-- C5 as stated is false on the code: `int8` is an integer width, yet the
switch of `queryFieldToString` covers only `Int64`, `Int32`, `Int`, so an
`int8` field falls into the default case and flattening fails instead of
producing the base-10 representation "5". -/
theorem C5_counterexample :
    queryFieldToString (QVal.int .i8 5) = .error "unsupported query param type: int8" ∧
    queryFieldToString (QVal.int .i8 5) ≠ .ok "5" ∧
    flattenQueryStruct (.strukt [⟨"N", some "n", QVal.int .i8 5⟩]) =
      .error "unsupported query param type: int8" :=
  ⟨rfl, by decide, by decide⟩

/-- C5 (amended): a string field maps to itself; an integer field of kind
`int`, `int32` or `int64` maps to its base-10 ASCII representation; a
boolean field maps to the literal "true"/"false"; the remaining signed
integer widths (`int8`, `int16`) and every other kind fail with an
UnsupportedType error naming the field's type. -/
theorem C5_stringification :
    (∀ s : String, queryFieldToString (.str s) = .ok s) ∧
    (∀ n : Int, queryFieldToString (.int .iN n) = .ok (toString n) ∧
        queryFieldToString (.int .i32 n) = .ok (toString n) ∧
        queryFieldToString (.int .i64 n) = .ok (toString n)) ∧
    (∀ b : Bool, queryFieldToString (.bool b) = .ok (if b then "true" else "false")) ∧
    (∀ n : Int,
        queryFieldToString (.int .i8 n) =
          .error ("unsupported query param type: " ++ IntWidth.i8.name) ∧
        queryFieldToString (.int .i16 n) =
          .error ("unsupported query param type: " ++ IntWidth.i16.name)) ∧
    (∀ (k tn : String) (z mm : Bool) (rep : String),
        queryFieldToString (.other k tn z mm rep) =
          .error ("unsupported query param type: " ++ tn)) ∧
    flattenQueryStruct (.strukt [⟨"F", some "f", .other "float64" "float64" false true "1.5"⟩]) =
      .error "unsupported query param type: float64" :=
  ⟨fun _ => rfl, fun _ => ⟨rfl, rfl, rfl⟩, fun _ => rfl, fun _ => ⟨rfl, rfl⟩,
   fun _ _ _ _ _ => rfl, by decide⟩

/-- The query parameters of the built request never depend on the filter
string (which only touches headers). -/
theorem applyRest_query_eq (o1 o2 : ListOptions) (r : Request)
    (hp : o1.pageOptions = o2.pageOptions) (hs : o1.pageSize = o2.pageSize) :
    (applyRest o1 r).query = (applyRest o2 r).query := by
  by_cases h1 : 0 < o1.filter.length <;> by_cases h2 : 0 < o2.filter.length <;>
    simp [applyRest, hp, hs, h1, h2, Request.setHeader]

/-- C7: the filter string only ever lands in the dedicated `X-Filter`
header — the query parameters of the built request are independent of it;
a non-empty filter is set as the header with its exact value, an empty
filter leaves the headers untouched. -/
theorem C7_filter_header (o : ListOptions) (r : Request) :
    ((applyListOptionsToRequest (some o) r).map Request.query =
      (applyListOptionsToRequest (some { o with filter := "" }) r).map Request.query) ∧
    (0 < o.filter.length → ∀ r', applyListOptionsToRequest (some o) r = .ok r' →
      r'.getHeader "X-Filter" = some o.filter) ∧
    (o.filter.length = 0 → ∀ r', applyListOptionsToRequest (some o) r = .ok r' →
      r'.headers = r.headers) := by
  refine ⟨?_, ?_, ?_⟩
  · simp only [applyListOptionsToRequest]
    cases hq : o.queryParams with
    | none =>
      simp only [hq, Except.map]
      exact congrArg Except.ok (applyRest_query_eq o _ r rfl rfl)
    | some qp =>
      simp only [hq]
      cases hf : flattenQueryStruct qp with
      | error e => simp [hf]
      | ok m =>
        simp only [hf, Except.map]
        exact congrArg Except.ok (applyRest_query_eq o _ (r.setQueryParams m) rfl rfl)
  · intro hflt r' ha
    cases hq : o.queryParams with
    | none =>
      simp only [applyListOptionsToRequest, hq] at ha
      obtain rfl : applyRest o r = r' := Except.ok.inj ha
      exact applyRest_header_filter o r hflt
    | some qp =>
      simp only [applyListOptionsToRequest, hq] at ha
      cases hf : flattenQueryStruct qp with
      | error e => simp [hf] at ha
      | ok m =>
        simp only [hf] at ha
        obtain rfl : applyRest o (r.setQueryParams m) = r' := Except.ok.inj ha
        exact applyRest_header_filter o _ hflt
  · intro hflt r' ha
    cases hq : o.queryParams with
    | none =>
      simp only [applyListOptionsToRequest, hq] at ha
      obtain rfl : applyRest o r = r' := Except.ok.inj ha
      exact applyRest_headers_nofilter o r hflt
    | some qp =>
      simp only [applyListOptionsToRequest, hq] at ha
      cases hf : flattenQueryStruct qp with
      | error e => simp [hf] at ha
      | ok m =>
        simp only [hf] at ha
        obtain rfl : applyRest o (r.setQueryParams m) = r' := Except.ok.inj ha
        rw [applyRest_headers_nofilter o _ hflt]
        exact headers_setQueryParams m r

theorem C7_filter_header_witness :
    (0 < ("label:myserver" : String).length ∧
     applyListOptionsToRequest (some ⟨none, 0, "label:myserver", none⟩) emptyRequest =
       .ok ⟨[], [("X-Filter", "label:myserver")]⟩) ∧
    Request.getHeader ⟨[], [("X-Filter", "label:myserver")]⟩ "X-Filter" =
      some "label:myserver" :=
  ⟨⟨by decide, by decide⟩,
   (C7_filter_header ⟨none, 0, "label:myserver", none⟩ emptyRequest).2.1 (by decide)
     ⟨[], [("X-Filter", "label:myserver")]⟩ (by decide)⟩

/-- C6: `Hash` is deterministic and well-formed — equal serialized content
yields equal hash strings; every successful result is the lowercase
hexadecimal encoding of the 256-bit SHA-256 digest of the serialized
bytes; and `Hash` fails (with the `failed to cache ListOptions` wrapping)
exactly when serialization fails. -/
theorem C6_hash_contract :
    (∀ l1 l2 : ListOptions, jsonMarshal l1 = jsonMarshal l2 →
        ListOptions.Hash l1 = ListOptions.Hash l2) ∧
    (∀ (l : ListOptions) (s : String), ListOptions.Hash l = .ok s →
        ∃ bs : List Nat, marshalBytes l = .ok bs ∧ s = hexEncode (sha256 bs) ∧
          (sha256 bs).length = 32 ∧ (∀ b ∈ sha256 bs, b < 256) ∧
          s.length = 64 ∧ (∀ c ∈ s.data, c ∈ lowerHexChars)) ∧
    (∀ l : ListOptions, (∃ s, ListOptions.Hash l = .ok s) ↔ ∃ bs, marshalBytes l = .ok bs) ∧
    (∀ (l : ListOptions) (e : String), ListOptions.Hash l = .error e →
        ∃ e0, jsonMarshal l = .error e0 ∧ e = "failed to cache ListOptions: " ++ e0) := by
  refine ⟨?_, ?_, ?_, ?_⟩
  · intro l1 l2 h
    have hm : marshalBytes l1 = marshalBytes l2 := by
      unfold marshalBytes
      rw [h]
    unfold ListOptions.Hash
    rw [hm]
  · intro l s h
    unfold ListOptions.Hash at h
    cases hm : marshalBytes l with
    | error e => simp [hm] at h
    | ok bs =>
      simp only [hm] at h
      obtain rfl : hexEncode (sha256 bs) = s := Except.ok.inj h
      refine ⟨bs, rfl, rfl, sha256_length bs, sha256_lt bs, ?_, hexEncode_chars _⟩
      rw [hexEncode_length, sha256_length]
  · intro l
    constructor
    · rintro ⟨s, hs⟩
      unfold ListOptions.Hash at hs
      cases hm : marshalBytes l with
      | error e => simp [hm] at hs
      | ok bs => exact ⟨bs, rfl⟩
    · rintro ⟨bs, hbs⟩
      refine ⟨hexEncode (sha256 bs), ?_⟩
      unfold ListOptions.Hash
      rw [hbs]
  · intro l e h
    unfold ListOptions.Hash at h
    cases hm : marshalBytes l with
    | ok bs => simp [hm] at h
    | error e0 =>
      simp only [hm] at h
      obtain rfl : "failed to cache ListOptions: " ++ e0 = e := Except.error.inj h
      refine ⟨e0, ?_, rfl⟩
      unfold marshalBytes at hm
      cases hj : jsonMarshal l with
      | error e1 =>
        simp only [hj, Except.map] at hm
        obtain rfl : e1 = e0 := Except.error.inj hm
        rfl
      | ok s0 => simp [hj, Except.map] at hm

set_option maxRecDepth 20000 in
theorem C6_hash_contract_witness :
    ListOptions.Hash defaultListOptions =
      .ok "53bff75e4b78b8d728b0fd4c13cc2bddd207d096ab184f77d50807bfedf85ebc" ∧
    ∃ bs : List Nat, marshalBytes defaultListOptions = .ok bs ∧
      "53bff75e4b78b8d728b0fd4c13cc2bddd207d096ab184f77d50807bfedf85ebc" =
        hexEncode (sha256 bs) ∧
      (sha256 bs).length = 32 ∧ (∀ b ∈ sha256 bs, b < 256) ∧
      ("53bff75e4b78b8d728b0fd4c13cc2bddd207d096ab184f77d50807bfedf85ebc" : String).length = 64 ∧
      (∀ c ∈ ("53bff75e4b78b8d728b0fd4c13cc2bddd207d096ab184f77d50807bfedf85ebc" : String).data,
        c ∈ lowerHexChars) :=
  ⟨by decide,
   C6_hash_contract.2.1 defaultListOptions
     "53bff75e4b78b8d728b0fd4c13cc2bddd207d096ab184f77d50807bfedf85ebc" (by decide)⟩

theorem queryParams_normalize (o : ListOptions) :
    (normalizePageOptions o).queryParams = o.queryParams := by
  cases h : o.pageOptions <;> simp [normalizePageOptions, h]

/-- C1 as frozen is false on the code: with the sentinel page but extra
query parameters that smuggle in `page=2`, the run still succeeds, yet the
first request already asks for page 2 (not page 1) and the accumulator is
page 2's items twice instead of the concatenation of pages 1 and 2. -/
theorem C1_counterexample :
    (fetchAll cxServer (some cxOpts)).err = none ∧
    (fetchAll cxServer (some cxOpts)).acc = [20, 20] ∧
    cxData none = .ok ⟨2, 4, [10]⟩ ∧
    cxData (some "2") = .ok ⟨2, 4, [20]⟩ ∧
    ([20, 20] : List Int) ≠ [10] ++ [20] ∧
    (fetchAll cxServer (some cxOpts)).reqs.map (fun r => r.getQuery "page") =
      [some "2", some "2"] :=
  ⟨by decide, by decide, rfl, rfl, by decide, by decide⟩

/-- C1 (amended): for every ListOptions whose page window is absent or has
page == 0, and whose extra query parameters (when present) flatten
successfully without defining a `page` parameter, a successful fetchAll
issues exactly `totalPages` sequential requests — the first one without a
page parameter (page 1 by the provider's convention), then pages 2 through
`totalPages` in ascending order, each built only after the previous
completed — and the accumulator ends as the concatenation of every page's
items in ascending page order; when `totalPages <= 1`, no request beyond
the first is issued. -/
theorem C1_fetch_all_pages (g : Server) (o : ListOptions) (pw : PageOptions) (n : Nat)
    (m : List (String × String)) (d1 : PageData) (d : Int → PageData)
    (r1 : Request) (rq : Int → Request)
    (hpw : o.pageOptions = none ∨ (o.pageOptions = some pw ∧ pw.page = 0))
    (hqp : flattenOpt o.queryParams = .ok m) (hm : assocGet m "page" = none)
    (ha : applyListOptionsToRequest (some o) emptyRequest = .ok r1)
    (hg1 : g r1 = .ok d1) (hn : d1.pages = (n : Int))
    (hrq : ∀ p ∈ pageList d1.pages,
        applyListOptionsToRequest (some (setPage (normalizePageOptions o) p)) emptyRequest =
          .ok (rq p))
    (hgp : ∀ p ∈ pageList d1.pages, g (rq p) = .ok (d p)) :
    (fetchAll g (some o)).err = none ∧
    (fetchAll g (some o)).acc =
      d1.items ++ ((pageList d1.pages).map (fun p => (d p).items)).flatten ∧
    (fetchAll g (some o)).reqs = r1 :: (pageList d1.pages).map rq ∧
    pageList d1.pages = pageSeg 2 (n - 1) ∧
    r1.getQuery "page" = none ∧
    (∀ p ∈ pageList d1.pages, (rq p).getQuery "page" = some (toString p)) ∧
    (fetchAll g (some o)).reqs.length = max n 1 ∧
    (n ≤ 1 → (fetchAll g (some o)).reqs = [r1]) := by
  -- the page parameter of each loop request
  obtain ⟨pwn, hpwn⟩ := Option.isSome_iff_exists.mp (isSome_normalize o)
  have hqpn : flattenOpt (normalizePageOptions o).queryParams = .ok m := by
    rw [queryParams_normalize]
    exact hqp
  have hpages : ∀ p ∈ pageList d1.pages, (rq p).getQuery "page" = some (toString p) := by
    intro p hp
    have htwo := mem_pageList_two_le hp
    have := apply_getQuery_page_pos (setPage (normalizePageOptions o) p)
      { pwn with page := p } emptyRequest (rq p) m
      (pageOptions_setPage _ pwn p hpwn) (by simpa using (by omega : (0 : Int) < p))
      hqpn (hrq p hp)
    simpa using this
  -- the first request has no page parameter
  have hnopos : ¬∃ pw', o.pageOptions = some pw' ∧ 0 < pw'.page := by
    rintro ⟨pw', hpw', hpos⟩
    rcases hpw with h0 | ⟨h1, h2⟩
    · rw [h0] at hpw'
      cases hpw'
    · rw [h1] at hpw'
      obtain rfl := Option.some.inj hpw'
      omega
  have hr1 := apply_getQuery_page_none o r1 m hnopos hqp hm ha
  -- the run itself, through the normalized options
  have hkey : (fetchAll g (some o)).err = none ∧
      (fetchAll g (some o)).acc =
        d1.items ++ ((pageList d1.pages).map (fun p => (d p).items)).flatten ∧
      (fetchAll g (some o)).reqs = r1 :: (pageList d1.pages).map rq := by
    rcases hpw with h0 | ⟨h1, h2⟩
    · have heq := fetchAll_none_window g o h0
      have hpw2 : (normalizePageOptions o).pageOptions = some ⟨0, 0, 0⟩ := by
        rw [normalize_none o h0]
      have ha2 : applyListOptionsToRequest (some (normalizePageOptions o)) emptyRequest =
          .ok r1 := by
        rw [← apply_normalize_none o emptyRequest h0]
        exact ha
      have hrun := fetchAll_sentinel g (normalizePageOptions o) ⟨0, 0, 0⟩ d1 d r1 rq
        hpw2 rfl ha2 hg1 hrq hgp
      rw [heq.1, heq.2.1, heq.2.2, hrun]
      exact ⟨rfl, rfl, rfl⟩
    · have hno : normalizePageOptions o = o := normalizePageOptions_of_some o pw h1
      rw [hno] at hrq
      have hrun := fetchAll_sentinel g o pw d1 d r1 rq h1 h2 ha hg1 hrq hgp
      rw [hrun]
      exact ⟨rfl, rfl, rfl⟩
  have hclosed : pageList d1.pages = pageSeg 2 (n - 1) := by
    rw [hn, pageList_natCast]
  refine ⟨hkey.1, hkey.2.1, hkey.2.2, hclosed, hr1, hpages, ?_, ?_⟩
  · rw [hkey.2.2, hclosed]
    simp only [List.length_cons, List.length_map, pageSeg_length]
    omega
  · intro hle
    rw [hkey.2.2, hclosed]
    have : n - 1 = 0 := by omega
    rw [this]
    rfl

theorem C1_fetch_all_pages_witness :
    ((NewListOptions 0 "").pageOptions = some (⟨0, 0, 0⟩ : PageOptions) ∧
     flattenOpt (NewListOptions 0 "").queryParams = .ok [] ∧
     applyListOptionsToRequest (some (NewListOptions 0 "")) emptyRequest = .ok emptyRequest ∧
     demoServer emptyRequest = .ok ⟨3, 6, [1, 2]⟩ ∧
     (∀ p ∈ pageList (3 : Int),
        applyListOptionsToRequest (some (setPage (normalizePageOptions (NewListOptions 0 "")) p))
          emptyRequest = .ok (demoReq p)) ∧
     (∀ p ∈ pageList (3 : Int), demoServer (demoReq p) = .ok (demoPages p))) ∧
    ((fetchAll demoServer (some (NewListOptions 0 ""))).err = none ∧
     (fetchAll demoServer (some (NewListOptions 0 ""))).acc =
       (⟨3, 6, [1, 2]⟩ : PageData).items ++
         ((pageList (⟨3, 6, [1, 2]⟩ : PageData).pages).map (fun p => (demoPages p).items)).flatten ∧
     (fetchAll demoServer (some (NewListOptions 0 ""))).reqs =
       emptyRequest :: (pageList (⟨3, 6, [1, 2]⟩ : PageData).pages).map demoReq ∧
     pageList (⟨3, 6, [1, 2]⟩ : PageData).pages = pageSeg 2 (3 - 1) ∧
     emptyRequest.getQuery "page" = none ∧
     (∀ p ∈ pageList (⟨3, 6, [1, 2]⟩ : PageData).pages,
        (demoReq p).getQuery "page" = some (toString p)) ∧
     (fetchAll demoServer (some (NewListOptions 0 ""))).reqs.length = max 3 1 ∧
     (3 ≤ 1 → (fetchAll demoServer (some (NewListOptions 0 ""))).reqs = [emptyRequest])) :=
  ⟨⟨rfl, rfl, by decide, by decide, by decide, by decide⟩,
   C1_fetch_all_pages demoServer (NewListOptions 0 "") ⟨0, 0, 0⟩ 3 [] ⟨3, 6, [1, 2]⟩
     demoPages emptyRequest demoReq (Or.inr ⟨rfl, rfl⟩) rfl (by decide) (by decide)
     (by decide) (by decide) (by decide) (by decide)⟩

/-- C2 as frozen is false on the code: the outermost frame's write-back at
source lines 123–124 runs after the loop and overwrites the totals with
the FIRST page's reported values.  Against a server whose page 1 reports
5 total results while page 3 (the last) reports 7, the successful
fetch-all leaves `totalResults = 5`, not the last page's 7. -/
theorem C2_counterexample :
    (fetchAll driftServer (some (NewListOptions 0 ""))).err = none ∧
    (fetchAll driftServer (some (NewListOptions 0 ""))).acc = [1, 2, 3, 4, 5, 6] ∧
    (fetchAll driftServer (some (NewListOptions 0 ""))).opts =
      some ⟨some ⟨3, 3, 5⟩, 0, "", none⟩ ∧
    driftData none = .ok ⟨3, 5, [1, 2]⟩ ∧
    driftData (some "3") = .ok ⟨3, 7, [5, 6]⟩ ∧
    (5 : Int) ≠ 7 :=
  ⟨by decide, by decide, rfl, rfl, rfl, by decide⟩

/-- C2 (amended): after a successful fetch-all call (page sentinel 0) over
a multi-page collection, `totalResults` and `totalPages` are written back
into the options so the caller can inspect final counts, and both equal
the FIRST page's reported values (which coincide with the last page's when
the server reports uniform totals, as in the 3-page, 2-items-per-page
scenario yielding a 6-item accumulator and `totalPages == 3`). -/
theorem C2_totals_writeback (g : Server) (o : ListOptions) (pw : PageOptions)
    (d1 : PageData) (d : Int → PageData) (r1 : Request) (rq : Int → Request)
    (hpw : o.pageOptions = some pw) (hpage : pw.page = 0)
    (ha : applyListOptionsToRequest (some o) emptyRequest = .ok r1)
    (hg1 : g r1 = .ok d1)
    (hrq : ∀ p ∈ pageList d1.pages,
        applyListOptionsToRequest (some (setPage o p)) emptyRequest = .ok (rq p))
    (hgp : ∀ p ∈ pageList d1.pages, g (rq p) = .ok (d p)) :
    (fetchAll g (some o)).err = none ∧
    (fetchAll g (some o)).acc =
      d1.items ++ ((pageList d1.pages).map (fun p => (d p).items)).flatten ∧
    ∃ of pwf, (fetchAll g (some o)).opts = some of ∧ of.pageOptions = some pwf ∧
      pwf.pages = d1.pages ∧ pwf.results = d1.results := by
  have hrun := fetchAll_sentinel g o pw d1 d r1 rq hpw hpage ha hg1 hrq hgp
  rw [hrun]
  refine ⟨rfl, rfl, ?_⟩
  have hiso : (loopExit d o (pageList d1.pages)).pageOptions.isSome :=
    isSome_loopExit d o _ (by simp [hpw])
  obtain ⟨pwl, hpwl⟩ := Option.isSome_iff_exists.mp hiso
  exact ⟨_, _, rfl, pageOptions_writeTotals _ pwl _ _ hpwl, rfl, rfl⟩

theorem C2_totals_writeback_witness :
    ((NewListOptions 0 "").pageOptions = some (⟨0, 0, 0⟩ : PageOptions) ∧
     applyListOptionsToRequest (some (NewListOptions 0 "")) emptyRequest = .ok emptyRequest ∧
     demoServer emptyRequest = .ok ⟨3, 6, [1, 2]⟩ ∧
     (∀ p ∈ pageList (3 : Int),
        applyListOptionsToRequest (some (setPage (NewListOptions 0 "") p)) emptyRequest =
          .ok (demoReq p)) ∧
     (∀ p ∈ pageList (3 : Int), demoServer (demoReq p) = .ok (demoPages p))) ∧
    ((fetchAll demoServer (some (NewListOptions 0 ""))).err = none ∧
     (fetchAll demoServer (some (NewListOptions 0 ""))).acc =
       (⟨3, 6, [1, 2]⟩ : PageData).items ++
         ((pageList (⟨3, 6, [1, 2]⟩ : PageData).pages).map (fun p => (demoPages p).items)).flatten ∧
     ∃ of pwf, (fetchAll demoServer (some (NewListOptions 0 ""))).opts = some of ∧
       of.pageOptions = some pwf ∧
       pwf.pages = (⟨3, 6, [1, 2]⟩ : PageData).pages ∧
       pwf.results = (⟨3, 6, [1, 2]⟩ : PageData).results) :=
  ⟨⟨rfl, by decide, by decide, by decide, by decide⟩,
   C2_totals_writeback demoServer (NewListOptions 0 "") ⟨0, 0, 0⟩ ⟨3, 6, [1, 2]⟩
     demoPages emptyRequest demoReq rfl rfl (by decide) (by decide) (by decide) (by decide)⟩

/-- A server whose very first fetch already fails. -/
def firstFailData : Option String → Except String PageData
  | none => .error "down"
  | some _ => .error "404"

def firstFailServer : Server := serverByPage firstFailData

/-- C8: if fetching any page — the first or any subsequent one — fails,
`listHelper` returns that error immediately: no request beyond the failing
one is issued and there is no retry; the items already appended by earlier
successful pages remain in the accumulator; and the aborting frame does
not write the totals back.  When the first fetch fails, the run ends after
that single request with an empty accumulator and the options entirely
untouched (the failure at source line 104 returns before lines 108–124
run).  When a loop page fails, the options keep the last successful
frame's totals (the caller's original ones when page 2 already fails),
with only the page number, assigned at source line 116 before the failing
call, advanced to the failing page. -/
theorem C8_error_abort (g : Server) (o : ListOptions) (pw : PageOptions)
    (d1 : PageData) (d : Int → PageData) (r1 : Request) (rq : Int → Request)
    (e : String) (k : Int) (good rest : List Int)
    (ha : applyListOptionsToRequest (some o) emptyRequest = .ok r1) :
    (g r1 = .error e → fetchAll g (some o) = ⟨some e, some o, [], [r1]⟩) ∧
    (o.pageOptions = some pw → pw.page = 0 →
     g r1 = .ok d1 →
     pageList d1.pages = good ++ k :: rest →
     (∀ p ∈ good, applyListOptionsToRequest (some (setPage o p)) emptyRequest = .ok (rq p)) →
     (∀ p ∈ good, g (rq p) = .ok (d p)) →
     applyListOptionsToRequest (some (setPage o k)) emptyRequest = .ok (rq k) →
     g (rq k) = .error e →
     ((fetchAll g (some o)).err = some e ∧
      (fetchAll g (some o)).reqs = r1 :: (good.map rq ++ [rq k]) ∧
      (fetchAll g (some o)).acc = d1.items ++ (good.map (fun p => (d p).items)).flatten ∧
      (good = [] → (fetchAll g (some o)).opts = some (setPage o k)) ∧
      (∀ last, good.getLast? = some last →
          ∃ of, (fetchAll g (some o)).opts = some of ∧
            of.pageOptions = some ⟨k, (d last).pages, (d last).results⟩))) := by
  constructor
  · intro hge
    rw [fetchAll, show (2 : Nat) = 1 + 1 from rfl]
    simpa using listHelperFuel_server_error g 1 (some o) [] [] r1 e ha hge
  · intro hpw hpage hg1 hsplit hrq hgp hrqk hgk
    have hrun := fetchAll_sentinel_fail g o pw d1 d r1 rq e k good rest hpw hpage ha hg1
      hsplit hrq hgp hrqk hgk
    rw [hrun]
    refine ⟨rfl, rfl, rfl, ?_, ?_⟩
    · rintro rfl
      simp [loopExit]
    · intro last hlast
      refine ⟨_, rfl, ?_⟩
      simp only [loopExit, hlast]
      have h1 := pageOptions_setPage o pw last hpw
      have h2 := pageOptions_writeTotals _ _ (d last).pages (d last).results h1
      have h3 := pageOptions_setPage _ _ k h2
      rw [h3]

theorem C8_error_abort_witness :
    (applyListOptionsToRequest (some (NewListOptions 0 "")) emptyRequest = .ok emptyRequest ∧
     firstFailServer emptyRequest = .error "down" ∧
     (NewListOptions 0 "").pageOptions = some (⟨0, 0, 0⟩ : PageOptions) ∧
     failServer emptyRequest = .ok ⟨4, 8, [1, 2]⟩ ∧
     pageList (⟨4, 8, [1, 2]⟩ : PageData).pages = [2] ++ 3 :: [4] ∧
     (∀ p ∈ ([2] : List Int),
        applyListOptionsToRequest (some (setPage (NewListOptions 0 "") p)) emptyRequest =
          .ok (demoReq p)) ∧
     (∀ p ∈ ([2] : List Int), failServer (demoReq p) = .ok (failPages p)) ∧
     applyListOptionsToRequest (some (setPage (NewListOptions 0 "") 3)) emptyRequest =
       .ok (demoReq 3) ∧
     failServer (demoReq 3) = .error "boom") ∧
    fetchAll firstFailServer (some (NewListOptions 0 "")) =
      ⟨some "down", some (NewListOptions 0 ""), [], [emptyRequest]⟩ ∧
    ((fetchAll failServer (some (NewListOptions 0 ""))).err = some "boom" ∧
     (fetchAll failServer (some (NewListOptions 0 ""))).reqs =
       emptyRequest :: (([2] : List Int).map demoReq ++ [demoReq 3]) ∧
     (fetchAll failServer (some (NewListOptions 0 ""))).acc =
       (⟨4, 8, [1, 2]⟩ : PageData).items ++
         (([2] : List Int).map (fun p => (failPages p).items)).flatten ∧
     (([2] : List Int) = [] →
        (fetchAll failServer (some (NewListOptions 0 ""))).opts =
          some (setPage (NewListOptions 0 "") 3)) ∧
     (∀ last, ([2] : List Int).getLast? = some last →
        ∃ of, (fetchAll failServer (some (NewListOptions 0 ""))).opts = some of ∧
          of.pageOptions = some ⟨3, (failPages last).pages, (failPages last).results⟩)) :=
  ⟨⟨by decide, rfl, rfl, by decide, by decide, by decide, by decide, by decide, by decide⟩,
   (C8_error_abort firstFailServer (NewListOptions 0 "") ⟨0, 0, 0⟩ ⟨0, 0, []⟩
     (fun _ => ⟨0, 0, []⟩) emptyRequest demoReq "down" 0 [] [] (by decide)).1 rfl,
   (C8_error_abort failServer (NewListOptions 0 "") ⟨0, 0, 0⟩ ⟨4, 8, [1, 2]⟩ failPages
     emptyRequest demoReq "boom" 3 [2] [4] (by decide)).2 rfl rfl (by decide) (by decide)
     (by decide) (by decide) (by decide) (by decide)⟩

/-- C9: after a successful fetch-all entered with page 0 over a collection
whose first response reports `totalPages = n >= 2`, the caller's options
are left with `page = n` — the loop's mutation at source line 116 is never
reset to the sentinel — so re-invoking `listHelper` with the same
unmodified options issues a single request for that last page only. -/
theorem C9_loop_mutation_persists (g : Server) (o : ListOptions) (pw : PageOptions) (n : Nat)
    (d1 : PageData) (d : Int → PageData) (r1 : Request) (rq : Int → Request)
    (hpw : o.pageOptions = some pw) (hpage : pw.page = 0)
    (ha : applyListOptionsToRequest (some o) emptyRequest = .ok r1)
    (hg1 : g r1 = .ok d1) (hn : d1.pages = (n : Int)) (h2 : 2 ≤ n)
    (hrq : ∀ p ∈ pageList d1.pages,
        applyListOptionsToRequest (some (setPage o p)) emptyRequest = .ok (rq p))
    (hgp : ∀ p ∈ pageList d1.pages, g (rq p) = .ok (d p)) :
    (fetchAll g (some o)).err = none ∧
    ∃ pwf, (fetchAll g (some o)).opts =
        some (writeTotals (loopExit d o (pageList d1.pages)) d1.pages d1.results) ∧
      (writeTotals (loopExit d o (pageList d1.pages)) d1.pages d1.results).pageOptions =
        some pwf ∧
      pwf.page = (n : Int) ∧
      (fetchAll g (some (writeTotals (loopExit d o (pageList d1.pages))
          d1.pages d1.results))).err = none ∧
      (fetchAll g (some (writeTotals (loopExit d o (pageList d1.pages))
          d1.pages d1.results))).reqs = [rq (n : Int)] ∧
      (fetchAll g (some (writeTotals (loopExit d o (pageList d1.pages))
          d1.pages d1.results))).acc = (d (n : Int)).items := by
  have hrun := fetchAll_sentinel g o pw d1 d r1 rq hpw hpage ha hg1 hrq hgp
  have hlast : (pageList d1.pages).getLast? = some ((n : Nat) : Int) := by
    rw [hn, pageList_natCast]
    have hm : n - 1 = (n - 2) + 1 := by omega
    rw [hm, getLast?_pageSeg]
    congr 1
    omega
  have hloopExit : loopExit d o (pageList d1.pages) =
      writeTotals (setPage o (n : Int)) (d (n : Int)).pages (d (n : Int)).results := by
    rw [loopExit, hlast]
  have h1 := pageOptions_setPage o pw (n : Int) hpw
  have h2w := pageOptions_writeTotals _ _ (d (n : Int)).pages (d (n : Int)).results h1
  have hofw : (writeTotals (loopExit d o (pageList d1.pages)) d1.pages d1.results).pageOptions =
      some ⟨(n : Int), d1.pages, d1.results⟩ := by
    rw [hloopExit, pageOptions_writeTotals _ _ d1.pages d1.results h2w]
  have hnz : ((n : Int)) ≠ 0 := by
    have hcast : (2 : Int) ≤ (n : Int) := by exact_mod_cast h2
    omega
  have hmem : ((n : Nat) : Int) ∈ pageList d1.pages := by
    rw [hn, pageList_natCast, mem_pageSeg]
    constructor
    · exact_mod_cast h2
    · omega
  have hsEq : staticEq (writeTotals (loopExit d o (pageList d1.pages)) d1.pages d1.results)
      (setPage o (n : Int)) := by
    refine staticEq_trans (staticEq_writeTotals _ _ _) ?_
    rw [hloopExit]
    exact staticEq_writeTotals _ _ _
  have happ2 : applyListOptionsToRequest
      (some (writeTotals (loopExit d o (pageList d1.pages)) d1.pages d1.results)) emptyRequest =
        .ok (rq (n : Int)) := by
    rw [apply_staticEq emptyRequest ⟨(n : Int), d1.pages, d1.results⟩
      { pw with page := (n : Int) } hsEq hofw h1 (by simp)]
    exact hrq _ hmem
  have hrerun := listHelperFuel_single g 1
    (writeTotals (loopExit d o (pageList d1.pages)) d1.pages d1.results)
    ⟨(n : Int), d1.pages, d1.results⟩ [] [] (rq (n : Int)) (d (n : Int)) hofw
    (by simpa using hnz) happ2 (hgp _ hmem)
  refine ⟨by rw [hrun], ⟨(n : Int), d1.pages, d1.results⟩, by rw [hrun], hofw, rfl, ?_, ?_, ?_⟩
  · show (listHelperFuel g 2 _ [] []).err = none
    rw [show (2 : Nat) = 1 + 1 from rfl, hrerun]
  · show (listHelperFuel g 2 _ [] []).reqs = _
    rw [show (2 : Nat) = 1 + 1 from rfl, hrerun]
    rfl
  · show (listHelperFuel g 2 _ [] []).acc = _
    rw [show (2 : Nat) = 1 + 1 from rfl, hrerun]
    rfl

theorem C9_loop_mutation_persists_witness :
    ((NewListOptions 0 "").pageOptions = some (⟨0, 0, 0⟩ : PageOptions) ∧
     applyListOptionsToRequest (some (NewListOptions 0 "")) emptyRequest = .ok emptyRequest ∧
     demoServer emptyRequest = .ok ⟨3, 6, [1, 2]⟩ ∧ 2 ≤ 3 ∧
     (∀ p ∈ pageList (3 : Int),
        applyListOptionsToRequest (some (setPage (NewListOptions 0 "") p)) emptyRequest =
          .ok (demoReq p)) ∧
     (∀ p ∈ pageList (3 : Int), demoServer (demoReq p) = .ok (demoPages p))) ∧
    ((fetchAll demoServer (some (NewListOptions 0 ""))).err = none ∧
     ∃ pwf, (fetchAll demoServer (some (NewListOptions 0 ""))).opts =
         some (writeTotals (loopExit demoPages (NewListOptions 0 "")
           (pageList (⟨3, 6, [1, 2]⟩ : PageData).pages)) 3 6) ∧
       (writeTotals (loopExit demoPages (NewListOptions 0 "")
           (pageList (⟨3, 6, [1, 2]⟩ : PageData).pages)) 3 6).pageOptions = some pwf ∧
       pwf.page = ((3 : Nat) : Int) ∧
       (fetchAll demoServer (some (writeTotals (loopExit demoPages (NewListOptions 0 "")
           (pageList (⟨3, 6, [1, 2]⟩ : PageData).pages)) 3 6))).err = none ∧
       (fetchAll demoServer (some (writeTotals (loopExit demoPages (NewListOptions 0 "")
           (pageList (⟨3, 6, [1, 2]⟩ : PageData).pages)) 3 6))).reqs = [demoReq ((3 : Nat) : Int)] ∧
       (fetchAll demoServer (some (writeTotals (loopExit demoPages (NewListOptions 0 "")
           (pageList (⟨3, 6, [1, 2]⟩ : PageData).pages)) 3 6))).acc =
         (demoPages ((3 : Nat) : Int)).items) :=
  ⟨⟨rfl, by decide, by decide, by decide, by decide, by decide⟩,
   C9_loop_mutation_persists demoServer (NewListOptions 0 "") ⟨0, 0, 0⟩ 3 ⟨3, 6, [1, 2]⟩
     demoPages emptyRequest demoReq rfl rfl (by decide) (by decide) rfl (by decide)
     (by decide) (by decide)⟩

/-- C10: invoked with absent (nil) options, `listHelper` still fetches all
pages, behaving exactly (same error, same accumulator, same requests) as
with a synthesized default `ListOptions` with page 0 — but the synthesized
value is local to the call (Go reassigns only the callee's copy of the nil
pointer at source line 109), so the caller observes no options mutation
and cannot read the written-back totals. -/
theorem C10_nil_options (g : Server) :
    (fetchAll g none).err = (fetchAll g (some defaultListOptions)).err ∧
    (fetchAll g none).acc = (fetchAll g (some defaultListOptions)).acc ∧
    (fetchAll g none).reqs = (fetchAll g (some defaultListOptions)).reqs ∧
    callerOptions none (fetchAll g none) = none := by
  have hap1 : applyListOptionsToRequest none emptyRequest = .ok emptyRequest := rfl
  have hap2 : applyListOptionsToRequest (some defaultListOptions) emptyRequest =
      .ok emptyRequest := by decide
  have key : (fetchAll g none).err = (fetchAll g (some defaultListOptions)).err ∧
      (fetchAll g none).acc = (fetchAll g (some defaultListOptions)).acc ∧
      (fetchAll g none).reqs = (fetchAll g (some defaultListOptions)).reqs := by
    simp only [fetchAll, show (2 : Nat) = 1 + 1 from rfl]
    cases hg : g emptyRequest with
    | error e =>
      rw [listHelperFuel_server_error g 1 none [] [] emptyRequest e hap1 hg,
        listHelperFuel_server_error g 1 (some defaultListOptions) [] [] emptyRequest e hap2 hg]
      exact ⟨rfl, rfl, rfl⟩
    | ok dd =>
      have hpg1 : (normalizePageOptions ((none : Option ListOptions).getD
          defaultListOptions)).page = 0 := rfl
      have hpg2 : (normalizePageOptions ((some defaultListOptions).getD
          defaultListOptions)).page = 0 := rfl
      rw [listHelperFuel_sentinel_step g 1 none [] [] emptyRequest dd hap1 hg hpg1,
        listHelperFuel_sentinel_step g 1 (some defaultListOptions) [] [] emptyRequest dd
          hap2 hg hpg2]
      simp [Option.getD_none, Option.getD_some]
  exact ⟨key.1, key.2.1, key.2.2, rfl⟩
